import Mathlib

/-!
Verification of the Edge Impulse converter plugin.

This file gives a shallow embedding of the conversion + signing + dispatch
pipeline of the repository:

* `app/services/converter.py` — `EdgeImpulseConverter` (`_sign_data`,
  `_build_edge_impulse_payload`, `_validate_dimensions`,
  `_generate_filename`, `convert`);
* `app/models/api_request.py` — `SensorDataRequest` and its pydantic
  field validators;
* `common/models/edge_impulse.py` — `UploadMetadata` and its
  `enforce_no_label_logic` model validator;
* `worker/celery_app.py` / `worker/tasks/ei_task.py` — the queued
  dispatch path (`upload_to_edge_impulse`) and the Celery retry settings.

Python dictionaries are embedded as ordered association lists, floats as an
abstract type `F` together with abstract render/parse functions (the claims
settled here do not depend on IEEE-754 arithmetic, only on the codec being
injective where a claim says doubles round-trip), the `hashlib`/`hmac`
library as an abstract function `H` over byte strings, and the wall clock
as an explicit `World` value.  Byte strings are `List Nat` with each entry
a value below 256.
-/

namespace EISpec

/-! ### Bytes, lowercase hex, UTF-8 -/

/-- Lowercase hexadecimal digit for `n % 16`, as produced by Python's
`bytes.hex()`. -/
def hexDigitLower (n : Nat) : Char :=
  if n % 16 < 10 then Char.ofNat (48 + n % 16) else Char.ofNat (87 + n % 16)

/-- Two lowercase hex characters of one byte. -/
def hexByte (b : Nat) : List Char :=
  [hexDigitLower (b / 16), hexDigitLower b]

/-- `bytes.hex()`: lowercase hex string of a byte string. -/
def hexOfBytes (bs : List Nat) : String :=
  String.mk (bs.flatMap hexByte)

/-- UTF-8 encoding of one code point (1–4 bytes). -/
def utf8Char (n : Nat) : List Nat :=
  if n < 128 then [n]
  else if n < 2048 then [192 + n / 64, 128 + n % 64]
  else if n < 65536 then [224 + n / 4096, 128 + n / 64 % 64, 128 + n % 64]
  else [240 + n / 262144, 128 + n / 4096 % 64, 128 + n / 64 % 64, 128 + n % 64]

/-- UTF-8 encoding of a character sequence (Python `str.encode("utf-8")`). -/
def utf8 (cs : List Char) : List Nat :=
  cs.flatMap (fun c => utf8Char c.toNat)

/-- UTF-8 bytes of a string. -/
def strBytes (s : String) : List Nat := utf8 s.data

/-- Is `b` a UTF-8 continuation byte? -/
def contByte (b : Nat) : Bool := 128 ≤ b && b < 192

mutual

/-- UTF-8 decoding (Python `bytes.decode("utf-8")`), rejecting malformed
sequences, overlong forms and surrogate code points.  The 2/3/4-byte
continuations are handled by the helpers below. -/
def utf8Un : List Nat → Option (List Char)
  | [] => some []
  | b0 :: bs =>
    if b0 < 128 then (utf8Un bs).map (fun cs => Char.ofNat b0 :: cs)
    else if b0 < 194 then none
    else if b0 < 224 then utf8Un2 b0 bs
    else if b0 < 240 then utf8Un3 b0 bs
    else if b0 < 245 then utf8Un4 b0 bs
    else none
termination_by bs => (bs.length, 0)

/-- Continuation of a 2-byte UTF-8 sequence. -/
def utf8Un2 (b0 : Nat) : List Nat → Option (List Char)
  | b1 :: bs1 =>
    if contByte b1 then
      (utf8Un bs1).map (fun cs => Char.ofNat ((b0 - 192) * 64 + b1 % 64) :: cs)
    else none
  | [] => none
termination_by bs => (bs.length, 1)

/-- Continuation of a 3-byte UTF-8 sequence (excluding overlong forms
and surrogates). -/
def utf8Un3 (b0 : Nat) : List Nat → Option (List Char)
  | b1 :: b2 :: bs2 =>
    if contByte b1 && contByte b2 &&
        decide (2048 ≤ (b0 - 224) * 4096 + b1 % 64 * 64 + b2 % 64) &&
        !(decide (55296 ≤ (b0 - 224) * 4096 + b1 % 64 * 64 + b2 % 64) &&
          decide ((b0 - 224) * 4096 + b1 % 64 * 64 + b2 % 64 < 57344)) then
      (utf8Un bs2).map (fun cs =>
        Char.ofNat ((b0 - 224) * 4096 + b1 % 64 * 64 + b2 % 64) :: cs)
    else none
  | _ => none
termination_by bs => (bs.length, 1)

/-- Continuation of a 4-byte UTF-8 sequence (code points above the BMP). -/
def utf8Un4 (b0 : Nat) : List Nat → Option (List Char)
  | b1 :: b2 :: b3 :: bs3 =>
    if contByte b1 && contByte b2 && contByte b3 &&
        decide (65536 ≤ (b0 - 240) * 262144 + b1 % 64 * 4096 + b2 % 64 * 64 + b3 % 64) &&
        decide ((b0 - 240) * 262144 + b1 % 64 * 4096 + b2 % 64 * 64 + b3 % 64 < 1114112) then
      (utf8Un bs3).map (fun cs =>
        Char.ofNat ((b0 - 240) * 262144 + b1 % 64 * 4096 + b2 % 64 * 64 + b3 % 64) :: cs)
    else none
  | _ => none
termination_by bs => (bs.length, 1)

end

/-! ### The JSON value tree

The dictionaries the converter builds contain only strings, ints
(`iat`), floats (`interval_ms`, the sample values), lists and nested
dicts, so the embedded value tree has exactly those constructors.
Objects are ordered association lists, mirroring Python's
insertion-ordered `dict`. -/

inductive Json (F : Type) where
  | str : String → Json F
  | int : Int → Json F
  | num : F → Json F
  | arr : List (Json F) → Json F
  | obj : List (String × Json F) → Json F
deriving Repr

/-! ### Decimal integers, JSON string escaping -/

/-- Decimal digit characters of a natural number, most significant first
(Python `str(n)` for `n ≥ 0`). -/
def natChars (n : Nat) : List Char :=
  if n = 0 then ['0']
  else ((Nat.digits 10 n).reverse).map (fun d => Char.ofNat (48 + d))

/-- Python `str(i)` for an int: optional minus sign, then decimal digits. -/
def intChars (i : Int) : List Char :=
  if i < 0 then '-' :: natChars i.natAbs else natChars i.natAbs

/-- `\uXXXX` escape of a code unit, with lowercase hex, as produced by
Python's `json.dumps` under the default `ensure_ascii=True`. -/
def uEscape (n : Nat) : List Char :=
  ['\\', 'u', hexDigitLower (n / 4096), hexDigitLower (n / 256),
   hexDigitLower (n / 16), hexDigitLower n]

/-- JSON escaping of one character under `ensure_ascii=True`: the two
mandatory escapes, the five short control escapes, `\uXXXX` for all other
characters outside printable ASCII (with a surrogate pair above the BMP),
and the character itself otherwise. -/
def escChar (c : Char) : List Char :=
  if c = '"' then ['\\', '"']
  else if c = '\\' then ['\\', '\\']
  else if c = '\n' then ['\\', 'n']
  else if c = '\t' then ['\\', 't']
  else if c = '\r' then ['\\', 'r']
  else if c.toNat = 8 then ['\\', 'b']
  else if c.toNat = 12 then ['\\', 'f']
  else if 32 ≤ c.toNat ∧ c.toNat ≤ 126 then [c]
  else if c.toNat < 65536 then uEscape c.toNat
  else uEscape (55296 + (c.toNat - 65536) / 1024) ++
       uEscape (56320 + (c.toNat - 65536) % 1024)

/-- A JSON string literal: quote, escaped body, quote. -/
def qstr (s : String) : List Char :=
  '"' :: (s.data.flatMap escChar ++ ['"'])

/-! ### Canonical serialization (`json.dumps(d, separators=(",", ":"),
sort_keys=True)`) — the byte-exact signing input. -/

/-- Sort object entries by key, code-point lexicographic, stable —
Python's `sort_keys=True` (`sorted` on the keys). -/
def sortEntries {F : Type} (ms : List (String × Json F)) :
    List (String × Json F) :=
  ms.mergeSort (fun a b => decide (a.1 ≤ b.1))

section Serialize

variable {F : Type} (frender : F → List Char)

mutual

/-- Recursively sort every object's entries by key — the tree
`json.dumps(…, sort_keys=True)` effectively serializes. -/
def sortedJson : Json F → Json F
  | .str s => .str s
  | .int i => .int i
  | .num x => .num x
  | .arr es => .arr (sortedList es)
  | .obj ms => .obj (sortEntries (sortedEntries ms))

/-- `sortedJson` mapped over array elements. -/
def sortedList : List (Json F) → List (Json F)
  | [] => []
  | e :: es => sortedJson e :: sortedList es

/-- `sortedJson` mapped over object values. -/
def sortedEntries : List (String × Json F) → List (String × Json F)
  | [] => []
  | (k, v) :: ms => (k, sortedJson v) :: sortedEntries ms

end

mutual

/-- In-order compact serialization: `","` and `":"` separators, no
whitespace. -/
def cdump : Json F → List Char
  | .str s => qstr s
  | .int i => intChars i
  | .num x => frender x
  | .arr es => '[' :: (cdumpItems es ++ [']'])
  | .obj ms => '{' :: (cdumpEntries ms ++ ['}'])

/-- Comma-separated compact items of an array. -/
def cdumpItems : List (Json F) → List Char
  | [] => []
  | [e] => cdump e
  | e :: e2 :: es => cdump e ++ ',' :: cdumpItems (e2 :: es)

/-- Comma-separated compact `"key":value` entries of an object. -/
def cdumpEntries : List (String × Json F) → List Char
  | [] => []
  | [(k, v)] => qstr k ++ ':' :: cdump v
  | (k, v) :: m2 :: ms => qstr k ++ ':' :: cdump v ++ ',' :: cdumpEntries (m2 :: ms)

end

/-- Canonical (signing-input) serialization:
`json.dumps(d, separators=(",", ":"), sort_keys=True)` — keys recursively
sorted, no insignificant whitespace. -/
def cdumps (j : Json F) : String := String.mk (cdump frender (sortedJson j))

/-! ### Pretty serialization (`json.dumps(d, indent=2)`) — the
structured-text wire format written by `convert`. -/

/-- Indentation of `lvl` levels: `2 * lvl` spaces. -/
def indentChars (lvl : Nat) : List Char := List.replicate (2 * lvl) ' '

mutual

/-- Pretty-printed serialization with two-space indentation, item
separator `","` + newline, key separator `": "` — `json.dumps(d, indent=2)`.
`lvl` is the nesting level of the value being printed. -/
def pdump (lvl : Nat) : Json F → List Char
  | .str s => qstr s
  | .int i => intChars i
  | .num x => frender x
  | .arr [] => ['[', ']']
  | .arr (e :: es) =>
    '[' :: '\n' :: (indentChars (lvl + 1) ++
      (pdumpItems (lvl + 1) e es ++ '\n' :: (indentChars lvl ++ [']'])))
  | .obj [] => ['{', '}']
  | .obj (m :: ms) =>
    '{' :: '\n' :: (indentChars (lvl + 1) ++
      (pdumpEntries (lvl + 1) m ms ++ '\n' :: (indentChars lvl ++ ['}'])))
termination_by j => sizeOf j

/-- Pretty items of a nonempty array, separated by `",\n" + indent`. -/
def pdumpItems (lvl : Nat) : Json F → List (Json F) → List Char
  | e, [] => pdump lvl e
  | e, e2 :: es =>
    pdump lvl e ++ ',' :: '\n' :: (indentChars lvl ++ pdumpItems lvl e2 es)
termination_by e es => sizeOf e + sizeOf es

/-- Pretty entries of a nonempty object: `"key": value`, separated by
`",\n" + indent`. -/
def pdumpEntries (lvl : Nat) : String × Json F → List (String × Json F) → List Char
  | (k, v), [] => qstr k ++ ':' :: ' ' :: pdump lvl v
  | (k, v), m2 :: ms =>
    qstr k ++ ':' :: ' ' :: pdump lvl v ++
      ',' :: '\n' :: (indentChars lvl ++ pdumpEntries lvl m2 ms)
termination_by m ms => sizeOf m + sizeOf ms

end

/-- Pretty serialization as a string, as sent to `.encode("utf-8")` by the
converter's JSON branch. -/
def pdumps (j : Json F) : String := String.mk (pdump frender 0 j)

end Serialize

/-! ### CBOR encoding (`cbor2.dumps`, default options)

Modelled from the cbor2 library (an external collaborator): unsigned and
negative integers as major types 0/1 with the shortest-argument header,
big integers as tagged byte strings (tags 2/3), text strings as major
type 3 with UTF-8 payload, arrays as major type 4, maps as major type 5
in insertion order, and floats as the 8-byte double-precision form
(initial byte 0xFB) under the default non-canonical settings. -/

/-- `k` big-endian base-256 digits of `n` (most significant first). -/
def beBytes : Nat → Nat → List Nat
  | 0, _ => []
  | k + 1, n => beBytes k (n / 256) ++ [n % 256]

/-- Minimal big-endian byte string of a positive natural (bignum payload). -/
def natBytesBE (n : Nat) : List Nat :=
  if n = 0 then [] else natBytesBE (n / 256) ++ [n % 256]
termination_by n
decreasing_by exact Nat.div_lt_self (Nat.pos_of_ne_zero (by assumption)) (by omega)

/-- CBOR initial byte(s) for major type `m` with argument `n`: the
argument inline below 24, else the shortest of the 1/2/4/8-byte forms. -/
def cborHead (m n : Nat) : List Nat :=
  if n < 24 then [32 * m + n]
  else if n < 256 then [32 * m + 24, n]
  else if n < 65536 then (32 * m + 25) :: beBytes 2 n
  else if n < 4294967296 then (32 * m + 26) :: beBytes 4 n
  else (32 * m + 27) :: beBytes 8 n

/-- CBOR encoding of an integer: major types 0/1 when the argument fits
in 64 bits, else a tagged bignum (tag 2 for `≥ 0`, tag 3 for `< 0`)
holding the minimal big-endian byte string. -/
def cborInt (i : Int) : List Nat :=
  if 0 ≤ i then
    if i.toNat < 18446744073709551616 then cborHead 0 i.toNat
    else cborHead 6 2 ++ cborHead 2 (natBytesBE i.toNat).length ++ natBytesBE i.toNat
  else
    let n := (-1 - i).toNat
    if n < 18446744073709551616 then cborHead 1 n
    else cborHead 6 3 ++ cborHead 2 (natBytesBE n).length ++ natBytesBE n

section Cbor

variable {F : Type} (fbytes : F → List Nat)

mutual

/-- `cbor2.dumps` on the embedded value tree; `fbytes` is the 8-byte
IEEE-754 big-endian encoding of a float (`struct.pack(">d", x)`). -/
def cborDump : Json F → List Nat
  | .str s => cborHead 3 (strBytes s).length ++ strBytes s
  | .int i => cborInt i
  | .num x => 251 :: fbytes x
  | .arr es => cborHead 4 es.length ++ cborDumpList es
  | .obj ms => cborHead 5 ms.length ++ cborDumpEntries ms

/-- Concatenated encodings of array elements. -/
def cborDumpList : List (Json F) → List Nat
  | [] => []
  | e :: es => cborDump e ++ cborDumpList es

/-- Concatenated key/value encodings of map entries, in insertion order. -/
def cborDumpEntries : List (String × Json F) → List Nat
  | [] => []
  | (k, v) :: ms =>
    (cborHead 3 (strBytes k).length ++ strBytes k) ++ cborDump v ++ cborDumpEntries ms

end

end Cbor

/-! ### The request / response data model (`app/models/api_request.py`) -/

/-- `FileFormat` (`app/models/api_request.py`): the two output formats. -/
inductive FileFormat where
  | json
  | cbor
deriving Repr, DecidableEq

/-- `FileFormat.value`: the string value of the enum member. -/
def FileFormat.value : FileFormat → String
  | .json => "json"
  | .cbor => "cbor"

/-- `SensorAxis` (`app/models/api_request.py`): one sensor axis. -/
structure SensorAxis where
  name : String
  units : String
deriving Repr, DecidableEq

/-- `SensorDataRequest` (`app/models/api_request.py`), after pydantic
validation.  Floats (`interval_ms`, the entries of `values`) live in the
abstract float type `F`. -/
structure SensorDataRequest (F : Type) where
  device_name : String
  device_type : String
  interval_ms : F
  sensors : List SensorAxis
  values : List (List F)
  timestamp : Option Int
  label : Option String
  file_format : FileFormat

/-- The ambient state the converter reads: `datetime.now()` in seconds
(for `iat`) and in milliseconds (for the generated filename).  No other
hidden state is read by the conversion pipeline. -/
structure World where
  nowSec : Int
  nowMs : Int

/-! ### Python dict primitives -/

/-- `d[k]`: first binding of `k` in an association list (Python dicts hold
each key at most once; the envelopes built here always do). -/
def dictGet {F : Type} (ms : List (String × Json F)) (k : String) :
    Option (Json F) :=
  match ms.find? (fun kv => kv.1 = k) with
  | some kv => some kv.2
  | none => none

/-- `d[k] = v` on a copy: replace the binding in place when the key is
present (Python dicts keep the original insertion position), else append
it. -/
def dictSet {F : Type} (ms : List (String × Json F)) (k : String) (v : Json F) :
    List (String × Json F) :=
  if ms.any (fun kv => kv.1 = k) then
    ms.map (fun kv => if kv.1 = k then (k, v) else kv)
  else ms ++ [(k, v)]

/-! ### The converter (`app/services/converter.py`, `EdgeImpulseConverter`)

The converter object's only state is `hmac_key`, passed explicitly; the
`hashlib`/`hmac` library is the abstract `H` (two byte strings to the
digest bytes); the logger performs no reads the results depend on and is
not modelled. -/

namespace EdgeImpulseConverter

/-- The all-zero placeholder signature, `"0" * 64`. -/
def placeholderSig : String := String.mk (List.replicate 64 '0')

section Converter

variable {F : Type} (frender : F → List Char)
variable (H : List Nat → List Nat → List Nat)
variable (hmac_key : String)

/-- `_sign_data`: `"0" * 64` when no key is configured; otherwise the
lowercase hex of `HMAC-SHA256(key, json.dumps(copy-with-placeholder,
separators=(",", ":"), sort_keys=True).encode("utf-8"))`. -/
def sign_data (data : List (String × Json F)) : String :=
  if hmac_key = "" then placeholderSig
  else
    let data_copy := dictSet data "signature" (.str placeholderSig)
    hexOfBytes (H (strBytes hmac_key) (strBytes (cdumps frender (.obj data_copy))))

/-- The `iat` value: `request.timestamp or int(datetime.now().timestamp())`
(Python `or`: a `None` **or zero** timestamp falls back to the clock). -/
def iatOf (req : SensorDataRequest F) (w : World) : Int :=
  match req.timestamp with
  | some t => if t = 0 then w.nowSec else t
  | none => w.nowSec

/-- The `protected` header dict built by `_build_edge_impulse_payload`:
`ver = "v1"`, `alg = "HS256"` iff a key is configured. -/
def protectedDict (req : SensorDataRequest F) (w : World) :
    List (String × Json F) :=
  [("ver", .str "v1"),
   ("alg", .str (if hmac_key = "" then "none" else "HS256")),
   ("iat", .int (iatOf req w))]

/-- The `payload` dict built by `_build_edge_impulse_payload`: identifier
fields and `interval_ms` passed through, sensors projected to
`{name, units}` in order, `values` passed through row-major. -/
def payloadDict (req : SensorDataRequest F) : List (String × Json F) :=
  [("device_name", .str req.device_name),
   ("device_type", .str req.device_type),
   ("interval_ms", .num req.interval_ms),
   ("sensors", .arr (req.sensors.map (fun s =>
      .obj [("name", .str s.name), ("units", .str s.units)]))),
   ("values", .arr (req.values.map (fun row => .arr (row.map Json.num))))]

/-- The envelope as first assembled, with the temporary placeholder
signature. -/
def unsignedEnvelope (req : SensorDataRequest F) (w : World) :
    List (String × Json F) :=
  [("protected", .obj (protectedDict hmac_key req w)),
   ("signature", .str placeholderSig),
   ("payload", .obj (payloadDict req))]

/-- `_build_edge_impulse_payload`: assemble the envelope with the
placeholder, then store `_sign_data`'s result under `"signature"`. -/
def build_edge_impulse_payload (req : SensorDataRequest F) (w : World) :
    List (String × Json F) :=
  let ei_data := unsignedEnvelope hmac_key req w
  dictSet ei_data "signature" (.str (sign_data frender H hmac_key ei_data))

/-- Width of the first values row, `len(request.values[0]) if
request.values else 0`. -/
def valueDimensions (req : SensorDataRequest F) : Nat :=
  match req.values with
  | [] => 0
  | row :: _ => row.length

/-- The `_validate_dimensions` error message, carrying both counts —
`f"Sensor count ({sensor_count}) doesn\x27t match value dimensions
({value_dimensions})"`. -/
def dimensionMismatchMsg (sensor_count value_dimensions : Nat) : String :=
  "Sensor count (" ++ toString sensor_count ++
    ") doesn\x27t match value dimensions (" ++ toString value_dimensions ++ ")"

/-- `_validate_dimensions`: compare the sensor count with the width of
the first values row; on mismatch raise `ValueError` with both counts. -/
def validate_dimensions (req : SensorDataRequest F) : Except String Unit :=
  let sensor_count := req.sensors.length
  let value_dimensions := valueDimensions req
  if sensor_count ≠ value_dimensions then
    .error (dimensionMismatchMsg sensor_count value_dimensions)
  else .ok ()

/-- `_generate_filename`: device type, `_label` when the label is truthy,
millisecond timestamp, format extension. -/
def generate_filename (req : SensorDataRequest F) (w : World) : String :=
  let label_part := match req.label with
    | some l => if l = "" then "" else "_" ++ l
    | none => ""
  req.device_type ++ label_part ++ "_" ++ String.mk (intChars w.nowMs) ++
    "." ++ req.file_format.value

/-- Units of observable work `convert` performs after validation. -/
inductive ConvEvent where
  | signed
  | encoded
deriving Repr, DecidableEq

/-- `convert`, instrumented with the list of post-validation work steps
actually performed: validate dimensions; build and sign the envelope;
generate the filename; encode as CBOR bytes or as UTF-8 bytes of the
indent-2 JSON text.  Returns `(content, filename, content_type)`. -/
def convertT (fbytes : F → List Nat) (req : SensorDataRequest F) (w : World) :
    Except String (List Nat × String × String) × List ConvEvent :=
  match validate_dimensions req with
  | .error e => (.error e, [])
  | .ok _ =>
    let ei_payload := build_edge_impulse_payload frender H hmac_key req w
    let filename := generate_filename req w
    match req.file_format with
    | .cbor =>
      (.ok (cborDump fbytes (.obj ei_payload), filename, "application/cbor"),
       [.signed, .encoded])
    | .json =>
      (.ok (strBytes (pdumps frender (.obj ei_payload)), filename,
        "application/json"),
       [.signed, .encoded])

/-- `convert`: the result without the instrumentation. -/
def convert (fbytes : F → List Nat) (req : SensorDataRequest F) (w : World) :
    Except String (List Nat × String × String) :=
  (convertT frender H hmac_key fbytes req w).1

end Converter

end EdgeImpulseConverter

/-! ### Pydantic validation of `SensorDataRequest`
(`app/models/api_request.py`)

Field constraints in declaration order (`interval_ms` with `gt=0`,
`sensors` and `values` with `min_length=1`), then the two `values` field
validators: non-emptiness, and every row as long as the first row. -/

/-- The raw request body before validation. -/
structure RawRequest (F : Type) where
  device_name : String
  device_type : String
  interval_ms : F
  sensors : List SensorAxis
  values : List (List F)
  timestamp : Option Int
  label : Option String
  file_format : FileFormat

/-- Scan helper for `firstRaggedRow`: first index `≥ i` with a row of
length other than `w`. -/
def firstRaggedRowFrom {F : Type} (w i : Nat) : List (List F) → Option Nat
  | [] => none
  | r :: rs => if r.length ≠ w then some i else firstRaggedRowFrom w (i + 1) rs

/-- First index whose row length differs from the first row's length
(`validate_values_dimensions` raises at the first such row). -/
def firstRaggedRow {F : Type} (rows : List (List F)) : Option Nat :=
  match rows with
  | [] => none
  | r0 :: _ => firstRaggedRowFrom r0.length 0 rows

/-- Pydantic validation of a raw request (`fpos` decides the `gt=0`
float constraint on `interval_ms`). -/
def validateRequest {F : Type} (fpos : F → Bool) (raw : RawRequest F) :
    Except String (SensorDataRequest F) :=
  if ¬ fpos raw.interval_ms then
    .error "interval_ms: Input should be greater than 0"
  else if raw.sensors.length < 1 then
    .error "sensors: List should have at least 1 item"
  else if raw.values.length < 1 then
    .error "values: List should have at least 1 item"
  else if raw.values.isEmpty then
    .error "values 陣列不能為空"
  else
    match firstRaggedRow raw.values with
    | some i => .error ("values 陣列第 " ++ toString i ++ " 行長度不一致")
    | none =>
      .ok ⟨raw.device_name, raw.device_type, raw.interval_ms, raw.sensors,
           raw.values, raw.timestamp, raw.label, raw.file_format⟩

/-- The model-validation + conversion pipeline a request goes through
(`SensorDataRequest(...)` then `converter.convert(request)`); every error
it can produce is a validation failure (pydantic `ValidationError` or the
converter's `ValueError`, both mapped to a 4xx response by the route). -/
def requestPipeline {F : Type} (fpos : F → Bool) (frender : F → List Char)
    (H : List Nat → List Nat → List Nat) (hmac_key : String)
    (fbytes : F → List Nat) (raw : RawRequest F) (w : World) :
    Except String (List Nat × String × String) :=
  match validateRequest fpos raw with
  | .error e => .error e
  | .ok req => EdgeImpulseConverter.convert frender H hmac_key fbytes req w

/-! ### `UploadMetadata` (`common/models/edge_impulse.py`) -/

/-- `DatasetType`. -/
inductive DatasetType where
  | training
  | testing
deriving Repr, DecidableEq

/-- The field values of `UploadMetadata` as supplied to the constructor
(defaults already applied). -/
structure UploadMetadata where
  api_key : String
  hmac_key : String
  file_name : Option String
  label : Option String
  no_label : Bool
  dataset_type : DatasetType
deriving Repr, DecidableEq

/-- The `mode="after"` model validator `enforce_no_label_logic`: when
neither `file_name` nor `label` is set, force `no_label := true`. -/
def UploadMetadata.enforce_no_label_logic (m : UploadMetadata) : UploadMetadata :=
  if m.file_name = none ∧ m.label = none then { m with no_label := true } else m

/-- Constructing an `UploadMetadata` runs the model validator after field
assignment. -/
def UploadMetadata.mk_validated (m : UploadMetadata) : UploadMetadata :=
  m.enforce_no_label_logic

/-! ### The queued dispatch path (`worker/celery_app.py`,
`worker/tasks/ei_task.py`)

Celery and the database are external collaborators: a task body is a
function of its inputs producing either a normal return value, a raised
exception, or an explicit retry request (Celery only retries a task that
raises `Retry` via `self.retry(...)` or declares `autoretry_for`;
`upload_to_edge_impulse` does neither). -/

/-- The three ways one execution of a Celery task body can end. -/
inductive TaskBodyOutcome (ρ : Type) where
  | ret (v : ρ)
  | raised (msg : String)
  | retryRequested
deriving Repr, DecidableEq

/-- What a status query (`AsyncResult(task_id)`) observes after the task
settles, plus instrumentation of the executor's behaviour. -/
structure CeleryOutcome (ρ : Type) where
  state : String
  result : Option ρ
  attempts : Nat
  delays : List Nat
deriving Repr, DecidableEq

/-- `task_max_retries` from `celery_app.conf.update` (retry settings). -/
def celery_task_max_retries : Nat := 3

/-- `task_default_retry_delay` from `celery_app.conf.update`: 60 seconds
(one minute), the fixed delay applied when a task does request a retry. -/
def celery_task_default_retry_delay : Nat := 60

/-- The Celery executor: run the body; a normal return settles as
`"SUCCESS"` with the returned payload, a raised exception settles as
`"FAILURE"`, and a retry request re-runs the body after the fixed delay
while the retry budget lasts. `attemptsLeft` counts executions still
allowed; `body k` is the outcome of attempt number `k`. -/
def celeryRun {ρ : Type} (maxRetries delay : Nat) (body : Nat → TaskBodyOutcome ρ) :
    Nat → Nat → List Nat → CeleryOutcome ρ
  | 0, k, ds => { state := "FAILURE", result := none, attempts := k, delays := ds }
  | attemptsLeft + 1, k, ds =>
    match body k with
    | .ret v =>
      { state := "SUCCESS", result := some v, attempts := k + 1, delays := ds }
    | .raised _ =>
      { state := "FAILURE", result := none, attempts := k + 1, delays := ds }
    | .retryRequested =>
      if k < maxRetries then
        celeryRun maxRetries delay body attemptsLeft (k + 1) (ds ++ [delay])
      else
        { state := "FAILURE", result := none, attempts := k + 1, delays := ds }

/-- Execute a task to settlement under the configured retry policy. -/
def celeryExec {ρ : Type} (maxRetries delay : Nat)
    (body : Nat → TaskBodyOutcome ρ) : CeleryOutcome ρ :=
  celeryRun maxRetries delay body (maxRetries + 1) 0 []

/-- A `DataSample` row, as far as the task body reads it. -/
structure DataSample where
  device_id : String
  sensor_type : String
  label : Option String
deriving Repr, DecidableEq

/-- The dict `upload_to_edge_impulse` returns. -/
structure TaskReturn where
  status : String
  info : String
deriving Repr, DecidableEq

/-- `upload_to_edge_impulse` (`worker/tasks/ei_task.py`): look the sample
up; missing → return an error dict; then call the Edge Impulse client
(`upload` is its outcome: an id on success, an exception message on
failure).  Every exception is caught by the task's `except Exception`
block and turned into a **normal return** of an error dict — the task
never raises and never requests a retry. -/
def upload_to_edge_impulse (sample : Option DataSample)
    (upload : Except String String) : TaskBodyOutcome TaskReturn :=
  match sample with
  | none => .ret { status := "error", info := "Sample not found" }
  | some _ =>
    match upload with
    | .ok ei_sample_id => .ret { status := "success", info := ei_sample_id }
    | .error e => .ret { status := "error", info := e }

/-- The `/EI_ingestion/tasks/{task_id}` status endpoint
(`app/api/ingestion_routes.py`): it reports the Celery state and result. -/
def get_task_status {ρ : Type} (o : CeleryOutcome ρ) : String × Option ρ :=
  (o.state, o.result)

/-! ### JSON text decoding (`json.loads`, an external collaborator)

A recursive-descent parser over the character list, total via a fuel
argument spent on every recursive call; `json.loads` accepts arbitrary
whitespace between tokens, so the parser does too.  Number tokens are
taken as the maximal run of number characters and handed to the int
reader or to the abstract float reader `fparse` according to whether the
token carries a fraction/exponent marker.  The model is permissive where
`json.loads` rejects redundant leading zeros, and rejects the lone
surrogates `json.loads` would admit into a Python `str` (they have no
`Char` representation); rendered output contains neither. -/

/-- JSON whitespace. -/
def wsChar (c : Char) : Bool := c = ' ' || c = '\t' || c = '\n' || c = '\r'

/-- Skip leading JSON whitespace. -/
def dropWs : List Char → List Char
  | [] => []
  | c :: cs => if wsChar c then dropWs cs else c :: cs

/-- Characters a number token may contain. -/
def numTokChar (c : Char) : Bool :=
  c.isDigit || c = '-' || c = '+' || c = '.' || c = 'e' || c = 'E'

/-- Maximal run of number-token characters, and the remainder. -/
def numSpan : List Char → List Char × List Char
  | [] => ([], [])
  | c :: cs =>
    if numTokChar c then
      let p := numSpan cs
      (c :: p.1, p.2)
    else ([], c :: cs)

/-- Value of a run of decimal digit characters, most significant first. -/
def decValue (ds : List Char) : Nat :=
  ds.foldl (fun a c => 10 * a + (c.toNat - 48)) 0

/-- Does this remainder stop a number token (empty, or headed by a
non-number character)? -/
def numStop : List Char → Bool
  | [] => true
  | c :: _ => !(numTokChar c)

/-- Integer from a number token: optional minus sign, then a nonempty
run of digits. -/
def intFromTok : List Char → Option Int
  | [] => none
  | c :: ds =>
    if c = '-' then
      if ds ≠ [] ∧ ds.all (fun x => x.isDigit) then some (-(decValue ds : Int))
      else none
    else
      if (c :: ds).all (fun x => x.isDigit) then some ((decValue (c :: ds) : Int))
      else none

/-- Classify and read a number token: a fraction or exponent marker makes
it a float (read by `fparse`), otherwise it is an int. -/
def numFromTok {F : Type} (fparse : List Char → Option F) (tok : List Char) :
    Option (Json F) :=
  if tok.any (fun c => c = '.' || c = 'e' || c = 'E') then
    (fparse tok).map .num
  else (intFromTok tok).map .int

/-- Hexadecimal digit value (both cases). -/
def hexNib (c : Char) : Option Nat :=
  if 48 ≤ c.toNat ∧ c.toNat ≤ 57 then some (c.toNat - 48)
  else if 97 ≤ c.toNat ∧ c.toNat ≤ 102 then some (c.toNat - 87)
  else if 65 ≤ c.toNat ∧ c.toNat ≤ 70 then some (c.toNat - 55)
  else none

/-- Value of a `\uXXXX` escape's four hex digits. -/
def hexQuad (a b c d : Char) : Option Nat :=
  match hexNib a, hexNib b, hexNib c, hexNib d with
  | some va, some vb, some vc, some vd =>
    some (va * 4096 + vb * 256 + vc * 16 + vd)
  | _, _, _, _ => none

/-- The single-character escapes. -/
def shortEsc : Char → Option Char
  | '"' => some '"'
  | '\\' => some '\\'
  | '/' => some '/'
  | 'b' => some (Char.ofNat 8)
  | 'f' => some (Char.ofNat 12)
  | 'n' => some '\n'
  | 'r' => some '\r'
  | 't' => some '\t'
  | _ => none

/-- Body of a string literal after the opening quote: decoded characters
and the remainder after the closing quote.  Surrogate pairs in `\uXXXX`
escapes recombine into one character; raw control characters are
rejected (strict `json.loads`). -/
def strTail : List Char → Option (List Char × List Char)
  | [] => none
  | '"' :: rest => some ([], rest)
  | '\\' :: 'u' :: a :: b :: c :: d :: rest =>
    (match hexQuad a b c d with
     | none => none
     | some v =>
       if v < 55296 ∨ 57343 < v then
         (strTail rest).map (fun p => (Char.ofNat v :: p.1, p.2))
       else if v < 56320 then
         match rest with
         | '\\' :: 'u' :: a2 :: b2 :: c2 :: d2 :: rest2 =>
           (match hexQuad a2 b2 c2 d2 with
            | some v2 =>
              if 56320 ≤ v2 ∧ v2 < 57344 then
                (strTail rest2).map (fun p =>
                  (Char.ofNat (65536 + (v - 55296) * 1024 + (v2 - 56320)) :: p.1,
                   p.2))
              else none
            | none => none)
         | _ => none
       else none)
  | '\\' :: e :: rest =>
    (match shortEsc e with
     | some ch => (strTail rest).map (fun p => (ch :: p.1, p.2))
     | none => none)
  | c :: rest =>
    if c.toNat < 32 then none
    else (strTail rest).map (fun p => (c :: p.1, p.2))

section JsonParse

variable {F : Type} (fparse : List Char → Option F)

mutual

/-- Parse one JSON value (after skipping leading whitespace), spending
one unit of fuel. -/
def jparse : Nat → List Char → Option (Json F × List Char)
  | 0, _ => none
  | fuel + 1, cs =>
    match dropWs cs with
    | '"' :: r => (strTail r).map (fun p => (.str (String.mk p.1), p.2))
    | '[' :: r =>
      (match dropWs r with
       | ']' :: r2 => some (.arr [], r2)
       | r2 => (jparseItems fuel r2).map (fun p => (.arr p.1, p.2)))
    | '{' :: r =>
      (match dropWs r with
       | '}' :: r2 => some (.obj [], r2)
       | r2 => (jparseEntries fuel r2).map (fun p => (.obj p.1, p.2)))
    | c :: r =>
      if c.isDigit || c = '-' then
        let p := numSpan (c :: r)
        (numFromTok fparse p.1).map (fun j => (j, p.2))
      else none
    | [] => none
termination_by fuel _ => fuel

/-- Parse the one-or-more comma-separated items of a nonempty array, up
to and including the closing bracket. -/
def jparseItems : Nat → List Char → Option (List (Json F) × List Char)
  | 0, _ => none
  | fuel + 1, cs =>
    match jparse fuel cs with
    | none => none
    | some (v, r) =>
      match dropWs r with
      | ',' :: r2 => (jparseItems fuel r2).map (fun p => (v :: p.1, p.2))
      | ']' :: r2 => some ([v], r2)
      | _ => none
termination_by fuel _ => fuel

/-- Parse the one-or-more `"key": value` entries of a nonempty object,
up to and including the closing brace. -/
def jparseEntries : Nat → List Char → Option (List (String × Json F) × List Char)
  | 0, _ => none
  | fuel + 1, cs =>
    match dropWs cs with
    | '"' :: r =>
      (match strTail r with
       | none => none
       | some (kcs, r1) =>
         match dropWs r1 with
         | ':' :: r2 =>
           (match jparse fuel r2 with
            | none => none
            | some (v, r3) =>
              match dropWs r3 with
              | ',' :: r4 =>
                (jparseEntries fuel r4).map (fun p =>
                  ((String.mk kcs, v) :: p.1, p.2))
              | '}' :: r4 => some ([(String.mk kcs, v)], r4)
              | _ => none)
         | _ => none)
    | _ => none
termination_by fuel _ => fuel

end

/-- `json.loads`: parse one document and require only whitespace after
it. -/
def jloads (s : String) : Option (Json F) :=
  match jparse fparse (s.data.length + 1) s.data with
  | some (j, r) => if dropWs r = [] then some j else none
  | none => none

/-- Decode the structured-text wire bytes: UTF-8 decode, then parse. -/
def decodeJsonBytes (bs : List Nat) : Option (Json F) :=
  match utf8Un bs with
  | some cs => jloads fparse (String.mk cs)
  | none => none

end JsonParse

/-- The structured-text wire bytes `convert` produces for an envelope. -/
def encodeJsonBytes {F : Type} (frender : F → List Char) (j : Json F) :
    List Nat :=
  strBytes (pdumps frender j)

/-! ### CBOR decoding (`cbor2.loads`, an external collaborator) -/

/-- Read `k` bytes as a big-endian number accumulated onto `acc`. -/
def readBE : Nat → Nat → List Nat → Option (Nat × List Nat)
  | 0, acc, bs => some (acc, bs)
  | _ + 1, _, [] => none
  | k + 1, acc, b :: bs => readBE k (acc * 256 + b) bs

/-- Read a CBOR initial byte and its argument:
`(major type, argument, remainder)`. -/
def cborReadHead : List Nat → Option (Nat × Nat × List Nat)
  | [] => none
  | b :: bs =>
    let m := b / 32
    let ai := b % 32
    if ai < 24 then some (m, ai, bs)
    else if ai = 24 then
      match bs with
      | v :: r => some (m, v, r)
      | [] => none
    else if ai = 25 then (readBE 2 0 bs).map (fun p => (m, p.1, p.2))
    else if ai = 26 then (readBE 4 0 bs).map (fun p => (m, p.1, p.2))
    else if ai = 27 then (readBE 8 0 bs).map (fun p => (m, p.1, p.2))
    else none

/-- Split off `k` bytes. -/
def takeBytes : Nat → List Nat → Option (List Nat × List Nat)
  | 0, bs => some ([], bs)
  | _ + 1, [] => none
  | k + 1, b :: bs => (takeBytes k bs).map (fun p => (b :: p.1, p.2))

/-- Value of a big-endian byte string (bignum payload). -/
def bytesVal (bs : List Nat) : Nat :=
  bs.foldl (fun a b => a * 256 + b) 0

section CborParse

variable {F : Type} (ffrom : List Nat → Option F)

mutual

/-- Decode one CBOR item: doubles (initial byte 0xFB, 8 bytes via
`ffrom`), unsigned/negative integers, tagged bignums, text strings,
arrays and maps with text keys. -/
def cborLoad : Nat → List Nat → Option (Json F × List Nat)
  | 0, _ => none
  | fuel + 1, bs =>
    match bs with
    | 251 :: r =>
      (match takeBytes 8 r with
       | some (seg, r2) => (ffrom seg).map (fun x => (.num x, r2))
       | none => none)
    | _ =>
      match cborReadHead bs with
      | none => none
      | some (m, v, r) =>
        if m = 0 then some (.int (v : Int), r)
        else if m = 1 then some (.int (-1 - (v : Int)), r)
        else if m = 3 then
          match takeBytes v r with
          | some (seg, r2) =>
            (match utf8Un seg with
             | some cs => some (.str (String.mk cs), r2)
             | none => none)
          | none => none
        else if m = 4 then
          (cborLoadList fuel v r).map (fun p => (.arr p.1, p.2))
        else if m = 5 then
          (cborLoadEntries fuel v r).map (fun p => (.obj p.1, p.2))
        else if m = 6 ∧ (v = 2 ∨ v = 3) then
          match cborReadHead r with
          | some (m2, len, r2) =>
            if m2 = 2 then
              match takeBytes len r2 with
              | some (seg, r3) =>
                some (if v = 2 then (.int ((bytesVal seg : Nat) : Int), r3)
                      else (.int (-1 - ((bytesVal seg : Nat) : Int)), r3))
              | none => none
            else none
          | none => none
        else none
termination_by fuel _ => (fuel, 0)

/-- Decode `count` consecutive array elements. -/
def cborLoadList : Nat → Nat → List Nat → Option (List (Json F) × List Nat)
  | _, 0, bs => some ([], bs)
  | fuel, count + 1, bs =>
    match cborLoad fuel bs with
    | some (v, r) => (cborLoadList fuel count r).map (fun p => (v :: p.1, p.2))
    | none => none
termination_by fuel count _ => (fuel, count + 1)

/-- Decode `count` consecutive text-keyed map entries. -/
def cborLoadEntries : Nat → Nat → List Nat →
    Option (List (String × Json F) × List Nat)
  | _, 0, bs => some ([], bs)
  | fuel, count + 1, bs =>
    match cborReadHead bs with
    | some (mk, klen, r) =>
      if mk = 3 then
        match takeBytes klen r with
        | some (kseg, r1) =>
          (match utf8Un kseg with
           | some kcs =>
             match cborLoad fuel r1 with
             | some (v, r2) =>
               (cborLoadEntries fuel count r2).map (fun p =>
                 ((String.mk kcs, v) :: p.1, p.2))
             | none => none
           | none => none)
        | none => none
      else none
    | none => none
termination_by fuel count _ => (fuel, count + 1)

end

/-- `cbor2.loads`: decode one item and require no trailing bytes. -/
def cborLoads (bs : List Nat) : Option (Json F) :=
  match cborLoad ffrom (bs.length + 1) bs with
  | some (j, r) => if r = [] then some j else none
  | none => none

end CborParse

/-! ### Fuel measures for the round-trip proofs -/

mutual

/-- Fuel sufficient for `jparse` on this value's rendering. -/
def jfuel {F : Type} : Json F → Nat
  | .str _ => 1
  | .int _ => 1
  | .num _ => 1
  | .arr [] => 1
  | .arr (e :: es) => jfuelItems e es + 1
  | .obj [] => 1
  | .obj (m :: ms) => jfuelEntries m ms + 1
termination_by j => sizeOf j

/-- Fuel sufficient for `jparseItems` on a nonempty item list. -/
def jfuelItems {F : Type} : Json F → List (Json F) → Nat
  | e, [] => jfuel e + 1
  | e, e2 :: es => max (jfuel e) (jfuelItems e2 es) + 1
termination_by e es => sizeOf e + sizeOf es

/-- Fuel sufficient for `jparseEntries` on a nonempty entry list. -/
def jfuelEntries {F : Type} : String × Json F → List (String × Json F) → Nat
  | (_, v), [] => jfuel v + 1
  | (_, v), m2 :: ms => max (jfuel v) (jfuelEntries m2 ms) + 1
termination_by m ms => sizeOf m + sizeOf ms

end

mutual

/-- Fuel sufficient for `cborLoad` on this value's encoding. -/
def cfuel {F : Type} : Json F → Nat
  | .str _ => 1
  | .int _ => 1
  | .num _ => 1
  | .arr es => cfuelList es + 1
  | .obj ms => cfuelEntries ms + 1

/-- Fuel sufficient for `cborLoadList`. -/
def cfuelList {F : Type} : List (Json F) → Nat
  | [] => 0
  | e :: es => max (cfuel e) (cfuelList es)

/-- Fuel sufficient for `cborLoadEntries`. -/
def cfuelEntries {F : Type} : List (String × Json F) → Nat
  | [] => 0
  | (_, v) :: ms => max (cfuel v) (cfuelEntries ms)

end

mutual

/-- The physical-size condition under which the CBOR model's length
headers are faithful: every length argument a header carries fits the
largest (8-byte) header form.  Any value a Python process can hold
satisfies it. -/
def cborSizesOk {F : Type} : Json F → Bool
  | .str s => decide ((strBytes s).length < 18446744073709551616)
  | .int i =>
    let mag := if 0 ≤ i then i.toNat else (-1 - i).toNat
    decide (mag < 18446744073709551616) ||
      decide ((natBytesBE mag).length < 18446744073709551616)
  | .num _ => true
  | .arr es => decide (es.length < 18446744073709551616) && cborSizesOkList es
  | .obj ms => decide (ms.length < 18446744073709551616) && cborSizesOkEntries ms

/-- Size condition for every element of an array. -/
def cborSizesOkList {F : Type} : List (Json F) → Bool
  | [] => true
  | e :: es => cborSizesOk e && cborSizesOkList es

/-- Size condition for every key and value of a map. -/
def cborSizesOkEntries {F : Type} : List (String × Json F) → Bool
  | [] => true
  | (k, v) :: ms =>
    decide ((strBytes k).length < 18446744073709551616) && cborSizesOk v &&
      cborSizesOkEntries ms

end

/-! ## Dictionary lemmas -/

theorem dictGet_eq_find {F : Type} (ms : List (String × Json F)) (k : String) :
    dictGet ms k = (ms.find? (fun kv => kv.1 = k)).map Prod.snd := by
  unfold dictGet
  cases ms.find? (fun kv => kv.1 = k) <;> rfl

theorem dictGet_map_replace {F : Type} (ms : List (String × Json F))
    (k k' : String) (v : Json F) (h : k' ≠ k) :
    dictGet (ms.map (fun kv => if kv.1 = k then (k, v) else kv)) k' =
      dictGet ms k' := by
  induction ms with
  | nil => rfl
  | cons kv ms ih =>
    simp only [dictGet_eq_find] at ih ⊢
    simp only [List.map_cons]
    by_cases hk : kv.1 = k
    · rw [if_pos hk]
      rw [List.find?_cons_of_neg _ (by simpa using fun hc : k = k' => h hc.symm),
        List.find?_cons_of_neg _ (by simpa using fun hc : kv.1 = k' => h (hc ▸ hk))]
      exact ih
    · rw [if_neg hk]
      by_cases hk' : kv.1 = k'
      · rw [List.find?_cons_of_pos _ (by simpa using hk'),
          List.find?_cons_of_pos _ (by simpa using hk')]
      · rw [List.find?_cons_of_neg _ (by simpa using hk'),
          List.find?_cons_of_neg _ (by simpa using hk')]
        exact ih

/-- Setting a key other than `k'` leaves the binding of `k'` unchanged. -/
theorem dictGet_dictSet_ne {F : Type} (ms : List (String × Json F))
    (k k' : String) (v : Json F) (h : k' ≠ k) :
    dictGet (dictSet ms k v) k' = dictGet ms k' := by
  unfold dictSet
  by_cases hany : ms.any (fun kv => kv.1 = k)
  · rw [if_pos hany]
    exact dictGet_map_replace ms k k' v h
  · rw [if_neg hany, dictGet_eq_find, dictGet_eq_find, List.find?_append]
    have h1 : List.find? (fun kv => kv.1 = k') [(k, v)] = none := by
      simp only [List.find?_cons, decide_eq_false (fun hc : (k, v).1 = k' => h hc.symm)]
      rfl
    rw [h1]
    cases ms.find? (fun kv => kv.1 = k') <;> rfl

/-- Overwriting a key twice is the same as overwriting it once. -/
theorem dictSet_dictSet {F : Type} (ms : List (String × Json F))
    (k : String) (v v' : Json F) :
    dictSet (dictSet ms k v) k v' = dictSet ms k v' := by
  unfold dictSet
  by_cases hany : ms.any (fun kv => kv.1 = k)
  · have hany2 : (ms.map (fun kv => if kv.1 = k then (k, v) else kv)).any
        (fun kv => kv.1 = k) = true := by
      rw [List.any_map]
      rw [List.any_eq_true] at hany ⊢
      obtain ⟨kv, hmem, hkv⟩ := hany
      exact ⟨kv, hmem, by simp only [Function.comp]; simp only [decide_eq_true_eq] at hkv; simp [hkv]⟩
    rw [if_pos hany, if_pos hany2, if_pos hany, List.map_map]
    apply List.map_congr_left
    intro kv _
    by_cases hk : kv.1 = k
    · simp [Function.comp, hk]
    · simp [Function.comp, hk]
  · have hall : ∀ kv ∈ ms, ¬ (kv.1 = k) := by
      intro kv hmem
      rw [List.any_eq_true] at hany
      exact fun hc => hany ⟨kv, hmem, by simp [hc]⟩
    have hany2 : (ms ++ [(k, v)]).any (fun kv => kv.1 = k) = true := by
      rw [List.any_eq_true]
      exact ⟨(k, v), by simp, by simp⟩
    rw [if_neg hany, if_pos hany2, if_neg hany, List.map_append]
    have h1 : ms.map (fun kv => if kv.1 = k then (k, v') else kv) = ms := by
      conv_rhs => rw [← List.map_id ms]
      apply List.map_congr_left
      intro kv hmem
      simp [hall kv hmem]
    rw [h1]
    simp

/-! ## Hex-encoding lemmas -/

theorem hexDigitLower_mod (n : Nat) : hexDigitLower n = hexDigitLower (n % 16) := by
  unfold hexDigitLower
  have h : n % 16 % 16 = n % 16 := by omega
  rw [h]

theorem hexDigitLower_spec : ∀ k : Nat, k < 16 →
    hexNib (hexDigitLower k) = some k ∧
    ((48 ≤ (hexDigitLower k).toNat ∧ (hexDigitLower k).toNat ≤ 57) ∨
     (97 ≤ (hexDigitLower k).toNat ∧ (hexDigitLower k).toNat ≤ 102)) := by
  decide

theorem length_hexOfBytes (bs : List Nat) :
    (hexOfBytes bs).length = 2 * bs.length := by
  show (bs.flatMap hexByte).length = 2 * bs.length
  induction bs with
  | nil => rfl
  | cons b bs ih =>
    rw [List.flatMap_cons, List.length_append, ih]
    show 2 + 2 * bs.length = 2 * (bs.length + 1)
    omega

theorem hexOfBytes_lowercase (bs : List Nat) :
    ∀ c ∈ (hexOfBytes bs).data,
      (48 ≤ c.toNat ∧ c.toNat ≤ 57) ∨ (97 ≤ c.toNat ∧ c.toNat ≤ 102) := by
  intro c hc
  have hc' : c ∈ bs.flatMap hexByte := hc
  rw [List.mem_flatMap] at hc'
  obtain ⟨b, _, hcb⟩ := hc'
  have hmem : c = hexDigitLower (b / 16) ∨ c = hexDigitLower b := by
    simpa [hexByte] using hcb
  rcases hmem with h | h <;>
    · rw [h, hexDigitLower_mod]
      exact (hexDigitLower_spec _ (Nat.mod_lt _ (by omega))).2

/-! ## UTF-8 round-trip -/

theorem char_toNat_valid (c : Char) :
    c.toNat < 55296 ∨ (57343 < c.toNat ∧ c.toNat < 1114112) := by
  have h := c.valid
  cases h with
  | inl h => exact Or.inl h
  | inr h => exact Or.inr h

theorem utf8Un_cons (b0 : Nat) (bs : List Nat) :
    utf8Un (b0 :: bs) =
      if b0 < 128 then (utf8Un bs).map (fun cs => Char.ofNat b0 :: cs)
      else if b0 < 194 then none
      else if b0 < 224 then utf8Un2 b0 bs
      else if b0 < 240 then utf8Un3 b0 bs
      else if b0 < 245 then utf8Un4 b0 bs
      else none := by
  rw [utf8Un]

theorem utf8Un_utf8Char (c : Char) (bs : List Nat) :
    utf8Un (utf8Char c.toNat ++ bs) = (utf8Un bs).map (fun cs => c :: cs) := by
  have hv := char_toNat_valid c
  have hofnat : Char.ofNat c.toNat = c := Char.ofNat_toNat c
  unfold utf8Char
  by_cases h1 : c.toNat < 128
  · rw [if_pos h1]
    show utf8Un (c.toNat :: bs) = _
    rw [utf8Un_cons, if_pos h1, hofnat]
  · rw [if_neg h1]
    by_cases h2 : c.toNat < 2048
    · rw [if_pos h2]
      show utf8Un ((192 + c.toNat / 64) :: (128 + c.toNat % 64) :: bs) = _
      rw [utf8Un_cons, if_neg (by omega), if_neg (by omega), if_pos (by omega)]
      rw [utf8Un2]
      rw [if_pos (by simp only [contByte, Bool.and_eq_true, decide_eq_true_eq]; omega)]
      have harith : (192 + c.toNat / 64 - 192) * 64 + (128 + c.toNat % 64) % 64
          = c.toNat := by omega
      rw [harith, hofnat]
    · rw [if_neg h2]
      by_cases h3 : c.toNat < 65536
      · rw [if_pos h3]
        show utf8Un ((224 + c.toNat / 4096) :: (128 + c.toNat / 64 % 64) ::
          (128 + c.toNat % 64) :: bs) = _
        rw [utf8Un_cons, if_neg (by omega), if_neg (by omega), if_neg (by omega),
          if_pos (by omega)]
        rw [utf8Un3]
        rw [if_pos (by
          simp only [contByte, Bool.and_eq_true, Bool.not_eq_true',
            Bool.and_eq_false_iff, decide_eq_true_eq, decide_eq_false_iff_not]
          omega)]
        have harith : (224 + c.toNat / 4096 - 224) * 4096 +
            (128 + c.toNat / 64 % 64) % 64 * 64 + (128 + c.toNat % 64) % 64
            = c.toNat := by omega
        rw [harith, hofnat]
      · rw [if_neg h3]
        show utf8Un ((240 + c.toNat / 262144) :: (128 + c.toNat / 4096 % 64) ::
          (128 + c.toNat / 64 % 64) :: (128 + c.toNat % 64) :: bs) = _
        rw [utf8Un_cons, if_neg (by omega), if_neg (by omega), if_neg (by omega),
          if_neg (by omega), if_pos (by omega)]
        rw [utf8Un4]
        rw [if_pos (by
          simp only [contByte, Bool.and_eq_true, decide_eq_true_eq]
          omega)]
        have harith : (240 + c.toNat / 262144 - 240) * 262144 +
            (128 + c.toNat / 4096 % 64) % 64 * 4096 +
            (128 + c.toNat / 64 % 64) % 64 * 64 + (128 + c.toNat % 64) % 64
            = c.toNat := by omega
        rw [harith, hofnat]

theorem utf8Un_utf8 (cs : List Char) (bs : List Nat) :
    utf8Un (utf8 cs ++ bs) = (utf8Un bs).map (fun tail => cs ++ tail) := by
  induction cs with
  | nil =>
    show utf8Un bs = _
    cases utf8Un bs <;> rfl
  | cons c cs ih =>
    show utf8Un ((utf8Char c.toNat ++ utf8 cs) ++ bs) = _
    rw [List.append_assoc, utf8Un_utf8Char, ih]
    cases utf8Un bs <;> rfl

theorem utf8Un_utf8_eq (cs : List Char) : utf8Un (utf8 cs) = some cs := by
  have h := utf8Un_utf8 cs []
  rw [List.append_nil] at h
  rw [h, show utf8Un ([] : List Nat) = some [] from by rw [utf8Un]]
  show some (cs ++ []) = some cs
  rw [List.append_nil]

/-! ## Decimal number round-trip -/

theorem isDigit_toNat {c : Char} (h : c.isDigit = true) :
    48 ≤ c.toNat ∧ c.toNat ≤ 57 := by
  simp only [Char.isDigit, ge_iff_le, Bool.and_eq_true, decide_eq_true_eq] at h
  obtain ⟨h1, h2⟩ := h
  rw [UInt32.le_def, BitVec.le_def] at h1 h2
  exact ⟨h1, h2⟩

/-- A digit character differs from every character outside the digit
code-point range. -/
theorem char_ne_of_digit {c : Char} (h : c.isDigit = true) (d : Char)
    (hd : d.toNat < 48 ∨ 57 < d.toNat) : c ≠ d := by
  intro hc
  have hb := isDigit_toNat h
  rw [hc] at hb
  omega

theorem digit_numTokChar {c : Char} (h : c.isDigit = true) :
    numTokChar c = true := by
  simp [numTokChar, h]

theorem digit_not_ws {c : Char} (h : c.isDigit = true) : wsChar c = false := by
  simp only [wsChar, Bool.or_eq_false_iff, decide_eq_false_iff_not]
  exact ⟨⟨⟨char_ne_of_digit h ' ' (by decide), char_ne_of_digit h '\t' (by decide)⟩,
    char_ne_of_digit h '\n' (by decide)⟩, char_ne_of_digit h '\r' (by decide)⟩

theorem digitChar_spec : ∀ d : Nat, d < 10 →
    (Char.ofNat (48 + d)).toNat = 48 + d ∧
    (Char.ofNat (48 + d)).isDigit = true := by
  decide

theorem natChars_mem (n : Nat) :
    ∀ c ∈ natChars n, ∃ d, d < 10 ∧ c = Char.ofNat (48 + d) := by
  unfold natChars
  by_cases h : n = 0
  · rw [if_pos h]
    intro c hc
    rw [List.mem_singleton] at hc
    exact ⟨0, by omega, by rw [hc]⟩
  · rw [if_neg h]
    intro c hc
    rw [List.mem_map] at hc
    obtain ⟨d, hd, hcd⟩ := hc
    exact ⟨d, Nat.digits_lt_base (by omega) (List.mem_reverse.mp hd), hcd.symm⟩

theorem natChars_all_digits (n : Nat) : ∀ c ∈ natChars n, c.isDigit = true := by
  intro c hc
  obtain ⟨d, hd, rfl⟩ := natChars_mem n c hc
  exact (digitChar_spec d hd).2

theorem natChars_ne_nil (n : Nat) : natChars n ≠ [] := by
  unfold natChars
  by_cases h : n = 0
  · rw [if_pos h]
    exact List.cons_ne_nil _ _
  · rw [if_neg h]
    intro hc
    rw [List.map_eq_nil_iff, List.reverse_eq_nil_iff] at hc
    exact h (Nat.digits_eq_nil_iff_eq_zero.mp hc)

theorem decValue_digits : ∀ l : List Nat, (∀ d ∈ l, d < 10) →
    decValue ((l.reverse).map (fun d => Char.ofNat (48 + d))) = Nat.ofDigits 10 l := by
  intro l
  induction l with
  | nil => intro _; rfl
  | cons d l ih =>
    intro hall
    have hd : d < 10 := hall d (List.mem_cons_self d l)
    rw [List.reverse_cons, List.map_append]
    show decValue (_ ++ [Char.ofNat (48 + d)]) = _
    unfold decValue
    rw [List.foldl_append]
    have hmain := ih (fun x hx => hall x (List.mem_cons_of_mem d hx))
    unfold decValue at hmain
    rw [hmain]
    show 10 * Nat.ofDigits 10 l + ((Char.ofNat (48 + d)).toNat - 48) = _
    rw [(digitChar_spec d hd).1, Nat.ofDigits_cons]
    omega

theorem decValue_natChars (n : Nat) : decValue (natChars n) = n := by
  unfold natChars
  by_cases h : n = 0
  · rw [if_pos h, h]
    decide
  · rw [if_neg h]
    rw [decValue_digits _ (fun d hd => Nat.digits_lt_base (by omega) hd)]
    exact Nat.ofDigits_digits 10 n

theorem intFromTok_intChars (i : Int) : intFromTok (intChars i) = some i := by
  unfold intChars
  by_cases h : i < 0
  · rw [if_pos h, intFromTok]
    rw [if_pos rfl,
      if_pos ⟨natChars_ne_nil _, List.all_eq_true.mpr (natChars_all_digits _)⟩,
      decValue_natChars]
    congr 1
    omega
  · rw [if_neg h]
    obtain ⟨c, t, hct⟩ := List.exists_cons_of_ne_nil (natChars_ne_nil i.natAbs)
    have hcd : c.isDigit = true :=
      natChars_all_digits _ c (by rw [hct]; exact List.mem_cons_self c t)
    rw [hct, intFromTok, if_neg (char_ne_of_digit hcd '-' (by decide)),
      if_pos (by rw [← hct]; exact List.all_eq_true.mpr (natChars_all_digits _)),
      ← hct, decValue_natChars]
    congr 1
    omega

theorem intChars_all (i : Int) :
    ∀ c ∈ intChars i, c.isDigit = true ∨ c = '-' := by
  unfold intChars
  intro c hc
  by_cases h : i < 0
  · rw [if_pos h] at hc
    cases hc with
    | head => exact Or.inr rfl
    | tail _ hmem => exact Or.inl (natChars_all_digits _ c hmem)
  · rw [if_neg h] at hc
    exact Or.inl (natChars_all_digits _ c hc)

theorem intChars_no_marker (i : Int) :
    (intChars i).any (fun c => c = '.' || c = 'e' || c = 'E') = false := by
  rw [List.any_eq_false]
  intro c hc
  simp only [Bool.or_eq_true, decide_eq_true_eq, not_or]
  rcases intChars_all i c hc with hd | hm
  · exact ⟨⟨char_ne_of_digit hd '.' (by decide), char_ne_of_digit hd 'e' (by decide)⟩,
      char_ne_of_digit hd 'E' (by decide)⟩
  · subst hm
    exact ⟨⟨by decide, by decide⟩, by decide⟩

theorem numFromTok_intChars {F : Type} (fparse : List Char → Option F) (i : Int) :
    numFromTok fparse (intChars i) = some (.int i) := by
  unfold numFromTok
  rw [intChars_no_marker]
  show (intFromTok (intChars i)).map Json.int = _
  rw [intFromTok_intChars]
  rfl

theorem numSpan_append (tok rest : List Char)
    (htok : ∀ c ∈ tok, numTokChar c = true) (hrest : numStop rest = true) :
    numSpan (tok ++ rest) = (tok, rest) := by
  induction tok with
  | nil =>
    show numSpan rest = ([], rest)
    cases rest with
    | nil => rfl
    | cons c t =>
      unfold numStop at hrest
      rw [Bool.not_eq_true'] at hrest
      unfold numSpan
      rw [if_neg (by rw [hrest]; exact Bool.false_ne_true)]
  | cons c t ih =>
    show numSpan (c :: (t ++ rest)) = _
    unfold numSpan
    rw [if_pos (htok c (List.mem_cons_self c t)),
      ih (fun x hx => htok x (List.mem_cons_of_mem c hx))]

/-! ## String-literal round-trip -/

theorem hexNib_hexDigitLower (n : Nat) :
    hexNib (hexDigitLower n) = some (n % 16) := by
  rw [hexDigitLower_mod]
  exact (hexDigitLower_spec _ (Nat.mod_lt _ (by omega))).1

theorem hexQuad_uEscape (v : Nat) (hv : v < 65536) :
    hexQuad (hexDigitLower (v / 4096)) (hexDigitLower (v / 256))
      (hexDigitLower (v / 16)) (hexDigitLower v) = some v := by
  unfold hexQuad
  rw [hexNib_hexDigitLower, hexNib_hexDigitLower, hexNib_hexDigitLower,
    hexNib_hexDigitLower]
  show some (v / 4096 % 16 * 4096 + v / 256 % 16 * 256 + v / 16 % 16 * 16 + v % 16)
    = some v
  congr 1
  omega

theorem strTail_uEscape (v : Nat) (hv : v < 65536)
    (hs : v < 55296 ∨ 57343 < v) (x : List Char) :
    strTail (uEscape v ++ x) =
      (strTail x).map (fun p => (Char.ofNat v :: p.1, p.2)) := by
  show strTail ('\\' :: 'u' :: hexDigitLower (v / 4096) :: hexDigitLower (v / 256)
    :: hexDigitLower (v / 16) :: hexDigitLower v :: x) = _
  rw [strTail]
  split
  · rename_i heq
    rw [hexQuad_uEscape v hv] at heq
    cases heq
  · rename_i v' heq
    rw [hexQuad_uEscape v hv] at heq
    injection heq with hv'
    subst hv'
    rw [if_pos hs]

theorem strTail_surrogatePair (n : Nat) (h1 : 65536 ≤ n) (h2 : n < 1114112)
    (x : List Char) :
    strTail (uEscape (55296 + (n - 65536) / 1024) ++
      (uEscape (56320 + (n - 65536) % 1024) ++ x)) =
      (strTail x).map (fun p => (Char.ofNat n :: p.1, p.2)) := by
  have hq2 := hexQuad_uEscape (56320 + (n - 65536) % 1024) (by omega)
  show strTail ('\\' :: 'u' :: hexDigitLower ((55296 + (n - 65536) / 1024) / 4096)
    :: hexDigitLower ((55296 + (n - 65536) / 1024) / 256)
    :: hexDigitLower ((55296 + (n - 65536) / 1024) / 16)
    :: hexDigitLower (55296 + (n - 65536) / 1024)
    :: ('\\' :: 'u' :: hexDigitLower ((56320 + (n - 65536) % 1024) / 4096)
    :: hexDigitLower ((56320 + (n - 65536) % 1024) / 256)
    :: hexDigitLower ((56320 + (n - 65536) % 1024) / 16)
    :: hexDigitLower (56320 + (n - 65536) % 1024) :: x)) = _
  generalize hA : hexDigitLower ((56320 + (n - 65536) % 1024) / 4096) = A at hq2 ⊢
  generalize hB : hexDigitLower ((56320 + (n - 65536) % 1024) / 256) = B at hq2 ⊢
  generalize hC : hexDigitLower ((56320 + (n - 65536) % 1024) / 16) = C at hq2 ⊢
  generalize hD : hexDigitLower (56320 + (n - 65536) % 1024) = D at hq2 ⊢
  rw [strTail]
  split
  · rename_i heq
    rw [hexQuad_uEscape _ (by omega)] at heq
    cases heq
  · rename_i v' heq
    rw [hexQuad_uEscape _ (by omega)] at heq
    have hv' : v' = 55296 + (n - 65536) / 1024 := (Option.some.inj heq).symm
    subst hv'
    rw [if_neg (by omega), if_pos (by omega)]
    split
    · rename_i a2 b2 c2 d2 rest2 heq2
      simp only [List.cons.injEq] at heq2
      obtain ⟨-, -, ha, hb, hc, hd, hrest⟩ := heq2
      subst ha
      subst hb
      subst hc
      subst hd
      subst hrest
      split
      · rename_i v2 heq3
        rw [hq2] at heq3
        have hv2 : v2 = 56320 + (n - 65536) % 1024 := (Option.some.inj heq3).symm
        rw [if_pos (by omega)]
        have harith : 65536 + (55296 + (n - 65536) / 1024 - 55296) * 1024 +
            (v2 - 56320) = n := by omega
        rw [harith]
      · rename_i heq3
        rw [hq2] at heq3
        cases heq3
    · rename_i hno
      exact absurd rfl (hno A B C D x)

theorem strTail_escChar (c : Char) (x : List Char) :
    strTail (escChar c ++ x) = (strTail x).map (fun p => (c :: p.1, p.2)) := by
  have hv := char_toNat_valid c
  have hofnat : Char.ofNat c.toNat = c := Char.ofNat_toNat c
  unfold escChar
  by_cases h1 : c = '"'
  · rw [if_pos h1, h1]
    rfl
  rw [if_neg h1]
  by_cases h2 : c = '\\'
  · rw [if_pos h2, h2]
    rfl
  rw [if_neg h2]
  by_cases h3 : c = '\n'
  · rw [if_pos h3, h3]
    rfl
  rw [if_neg h3]
  by_cases h4 : c = '\t'
  · rw [if_pos h4, h4]
    rfl
  rw [if_neg h4]
  by_cases h5 : c = '\r'
  · rw [if_pos h5, h5]
    rfl
  rw [if_neg h5]
  by_cases h6 : c.toNat = 8
  · rw [if_pos h6]
    have hc : Char.ofNat 8 = c := by rw [← h6, hofnat]
    rw [← hc]
    rfl
  rw [if_neg h6]
  by_cases h7 : c.toNat = 12
  · rw [if_pos h7]
    have hc : Char.ofNat 12 = c := by rw [← h7, hofnat]
    rw [← hc]
    rfl
  rw [if_neg h7]
  by_cases h8 : 32 ≤ c.toNat ∧ c.toNat ≤ 126
  · rw [if_pos h8]
    show strTail (c :: x) = _
    rw [strTail.eq_def]
    split
    · rename_i heq
      cases heq
    · rename_i heq
      injection heq with hc _
      exact absurd hc h1
    · rename_i a b c' d rest heq
      injection heq with hc _
      exact absurd hc h2
    · rename_i e rest heq
      injection heq with hc _
      exact absurd hc h2
    · rename_i c' rest heq
      injection heq with hc ht
      subst hc
      subst ht
      rw [if_neg (by omega)]
  rw [if_neg h8]
  by_cases h9 : c.toNat < 65536
  · rw [if_pos h9]
    have hs : c.toNat < 55296 ∨ 57343 < c.toNat := by omega
    rw [strTail_uEscape _ h9 hs, hofnat]
  · rw [if_neg h9]
    rw [List.append_assoc, strTail_surrogatePair c.toNat (by omega) (by omega) x,
      hofnat]

theorem strTail_escBody (cs : List Char) : ∀ x : List Char,
    strTail (cs.flatMap escChar ++ ('"' :: x)) = some (cs, x) := by
  induction cs with
  | nil =>
    intro x
    show strTail ('"' :: x) = some ([], x)
    rw [strTail]
  | cons c cs ih =>
    intro x
    rw [List.flatMap_cons, List.append_assoc, strTail_escChar, ih]
    rfl

theorem qstr_append (s : String) (x : List Char) :
    qstr s ++ x = '"' :: (s.data.flatMap escChar ++ ('"' :: x)) := by
  unfold qstr
  rw [List.cons_append, List.append_assoc]
  rfl

/-! ## Pydantic-validation lemmas -/

theorem firstRaggedRowFrom_none {F : Type} (w : Nat) :
    ∀ (i : Nat) (rows : List (List F)), firstRaggedRowFrom w i rows = none →
      ∀ r ∈ rows, r.length = w := by
  intro i rows
  induction rows generalizing i with
  | nil =>
    intro _ r hr
    cases hr
  | cons r rs ih =>
    intro h r' hr'
    unfold firstRaggedRowFrom at h
    by_cases hlen : r.length ≠ w
    · rw [if_pos hlen] at h
      cases h
    · rw [if_neg hlen] at h
      push_neg at hlen
      cases hr' with
      | head => exact hlen
      | tail _ htail => exact ih (i + 1) h r' htail


/-! ## JSON text round-trip: whitespace and head-character lemmas -/

theorem dropWs_ws (c : Char) (h : wsChar c = true) (cs : List Char) :
    dropWs (c :: cs) = dropWs cs := by
  rw [dropWs, if_pos h]

theorem dropWs_not (c : Char) (h : wsChar c = false) (cs : List Char) :
    dropWs (c :: cs) = c :: cs := by
  rw [dropWs, if_neg (by rw [h]; exact Bool.false_ne_true)]

theorem dropWs_spaces (n : Nat) (cs : List Char) :
    dropWs (List.replicate n ' ' ++ cs) = dropWs cs := by
  induction n with
  | zero => rfl
  | succ k ih =>
    rw [List.replicate_succ, List.cons_append, dropWs_ws ' ' (by decide), ih]

theorem dropWs_indent (k : Nat) (cs : List Char) :
    dropWs (indentChars k ++ cs) = dropWs cs := dropWs_spaces _ cs

theorem dropWs_nl (cs : List Char) : dropWs ('\n' :: cs) = dropWs cs :=
  dropWs_ws '\n' (by decide) cs

theorem numStop_cons (c : Char) (h : numTokChar c = false) (cs : List Char) :
    numStop (c :: cs) = true := by
  rw [numStop, h]
  rfl

/-- `jparse` looks at its input only through `dropWs`. -/
theorem jparse_congr {F : Type} (fparse : List Char → Option F) (fuel : Nat)
    (cs cs' : List Char) (h : dropWs cs = dropWs cs') :
    jparse fparse fuel cs = jparse fparse fuel cs' := by
  cases fuel with
  | zero => rw [jparse, jparse]
  | succ f => rw [jparse, jparse, h]

/-- `jparseItems` looks at its input only through `dropWs` (via `jparse`). -/
theorem jparseItems_congr {F : Type} (fparse : List Char → Option F) (fuel : Nat)
    (cs cs' : List Char) (h : dropWs cs = dropWs cs') :
    jparseItems fparse fuel cs = jparseItems fparse fuel cs' := by
  cases fuel with
  | zero => rw [jparseItems, jparseItems]
  | succ f => rw [jparseItems, jparseItems, jparse_congr fparse f cs cs' h]

/-- `jparseEntries` looks at its input only through `dropWs`. -/
theorem jparseEntries_congr {F : Type} (fparse : List Char → Option F) (fuel : Nat)
    (cs cs' : List Char) (h : dropWs cs = dropWs cs') :
    jparseEntries fparse fuel cs = jparseEntries fparse fuel cs' := by
  cases fuel with
  | zero => rw [jparseEntries, jparseEntries]
  | succ f => rw [jparseEntries, jparseEntries, h]

/-- A rendered integer starts with a digit or a minus sign. -/
theorem intChars_head (i : Int) : ∃ c t, intChars i = c :: t ∧
    (c.isDigit || decide (c = '-')) = true := by
  unfold intChars
  by_cases h : i < 0
  · exact ⟨'-', natChars i.natAbs, by rw [if_pos h], by decide⟩
  · obtain ⟨c, t, hct⟩ := List.exists_cons_of_ne_nil (natChars_ne_nil i.natAbs)
    refine ⟨c, t, by rw [if_neg h, hct], ?_⟩
    have hd : c.isDigit = true :=
      natChars_all_digits _ c (by rw [hct]; exact List.mem_cons_self c t)
    rw [hd, Bool.true_or]

/-- A number-leading character is unescaped printable ASCII and in
particular none of the structural characters. -/
theorem numHead_props (c : Char) (hc : (c.isDigit || decide (c = '-')) = true) :
    wsChar c = false ∧ c ≠ '"' ∧ c ≠ '[' ∧ c ≠ '{' ∧ c ≠ ']' ∧ c ≠ '}' := by
  rcases (Bool.or_eq_true _ _).mp hc with hd | hm
  · exact ⟨digit_not_ws hd, char_ne_of_digit hd '"' (by decide),
      char_ne_of_digit hd '[' (by decide), char_ne_of_digit hd '{' (by decide),
      char_ne_of_digit hd ']' (by decide), char_ne_of_digit hd '}' (by decide)⟩
  · have : c = '-' := of_decide_eq_true hm
    subst this
    exact ⟨by decide, by decide, by decide, by decide, by decide, by decide⟩

/-- Every pretty-printed value starts with a non-whitespace character
that closes no bracket. -/
theorem pdump_head {F : Type} (frender : F → List Char)
    (hfhead : ∀ x, ∃ c t, frender x = c :: t ∧
      (c.isDigit || decide (c = '-')) = true)
    (lvl : Nat) (j : Json F) :
    ∃ c t, pdump frender lvl j = c :: t ∧ wsChar c = false ∧
      c ≠ ']' ∧ c ≠ '}' := by
  cases j with
  | str s =>
    refine ⟨'"', s.data.flatMap escChar ++ ['"'], ?_, by decide, by decide,
      by decide⟩
    rw [pdump, qstr]
  | int i =>
    obtain ⟨c, t, hct, hc⟩ := intChars_head i
    obtain ⟨hw, _, _, _, h5, h6⟩ := numHead_props c hc
    exact ⟨c, t, by rw [pdump, hct], hw, h5, h6⟩
  | num x =>
    obtain ⟨c, t, hct, hc⟩ := hfhead x
    obtain ⟨hw, _, _, _, h5, h6⟩ := numHead_props c hc
    exact ⟨c, t, by rw [pdump, hct], hw, h5, h6⟩
  | arr es =>
    cases es with
    | nil => exact ⟨'[', [']'], by rw [pdump], by decide, by decide, by decide⟩
    | cons e es => exact ⟨'[', _, by rw [pdump], by decide, by decide, by decide⟩
  | obj ms =>
    cases ms with
    | nil => exact ⟨'{', ['}'], by rw [pdump], by decide, by decide, by decide⟩
    | cons m ms => exact ⟨'{', _, by rw [pdump], by decide, by decide, by decide⟩

/-- A pretty-printed item list starts like its first value. -/
theorem pdumpItems_head {F : Type} (frender : F → List Char)
    (hfhead : ∀ x, ∃ c t, frender x = c :: t ∧
      (c.isDigit || decide (c = '-')) = true)
    (lvl : Nat) (e : Json F) (es : List (Json F)) :
    ∃ c t, pdumpItems frender lvl e es = c :: t ∧ wsChar c = false ∧
      c ≠ ']' ∧ c ≠ '}' := by
  obtain ⟨c, t, hct, hw, h5, h6⟩ := pdump_head frender hfhead lvl e
  cases es with
  | nil => exact ⟨c, t, by rw [pdumpItems, hct], hw, h5, h6⟩
  | cons e2 es =>
    exact ⟨c, t ++ _, by rw [pdumpItems, hct, List.cons_append], hw, h5, h6⟩

/-- A pretty-printed entry list starts with its first key's quote. -/
theorem pdumpEntries_head {F : Type} (frender : F → List Char) (lvl : Nat)
    (m : String × Json F) (ms : List (String × Json F)) :
    ∃ t, pdumpEntries frender lvl m ms = '"' :: t := by
  obtain ⟨k, v⟩ := m
  cases ms with
  | nil => exact ⟨_, by rw [pdumpEntries, qstr_append]⟩
  | cons m2 ms => exact ⟨_, by rw [pdumpEntries, List.append_assoc, qstr_append]⟩

/-- Reading back a rendered float. -/
theorem numFromTok_frender {F : Type} (fparse : List Char → Option F)
    (frender : F → List Char) (hfp : ∀ x, fparse (frender x) = some x)
    (hfmark : ∀ x,
      (frender x).any (fun c => c = '.' || c = 'e' || c = 'E') = true) (x : F) :
    numFromTok fparse (frender x) = some (.num x) := by
  unfold numFromTok
  rw [if_pos (hfmark x), hfp x]
  rfl

/-- Parsing the pretty-printed rendering of a value — or of the item /
entry lists of a nonempty array / object, in a context closing with the
matching bracket — recovers it exactly.  Proved simultaneously for the
three parsers by strong induction on the fuel. -/
theorem rt_all {F : Type} (fparse : List Char → Option F)
    (frender : F → List Char)
    (hfp : ∀ x, fparse (frender x) = some x)
    (hfchars : ∀ x, ∀ c ∈ frender x, numTokChar c = true)
    (hfmark : ∀ x,
      (frender x).any (fun c => c = '.' || c = 'e' || c = 'E') = true)
    (hfhead : ∀ x, ∃ c t, frender x = c :: t ∧
      (c.isDigit || decide (c = '-')) = true)
    (fuel : Nat) :
    (∀ (lvl : Nat) (j : Json F) (rest : List Char), jfuel j ≤ fuel →
      numStop rest = true →
      jparse fparse fuel (pdump frender lvl j ++ rest) = some (j, rest)) ∧
    (∀ (lvl : Nat) (e : Json F) (es : List (Json F)) (tail rest : List Char),
      jfuelItems e es ≤ fuel → dropWs tail = ']' :: rest →
      numStop tail = true →
      jparseItems fparse fuel (pdumpItems frender lvl e es ++ tail) =
        some (e :: es, rest)) ∧
    (∀ (lvl : Nat) (m : String × Json F) (ms : List (String × Json F))
      (tail rest : List Char),
      jfuelEntries m ms ≤ fuel → dropWs tail = '}' :: rest →
      numStop tail = true →
      jparseEntries fparse fuel (pdumpEntries frender lvl m ms ++ tail) =
        some (m :: ms, rest)) := by
  induction fuel using Nat.strong_induction_on with
  | _ fuel ih =>
  refine ⟨?_, ?_, ?_⟩
  · intro lvl j rest hfuel hstop
    cases j with
    | str s =>
      rw [jfuel] at hfuel
      obtain ⟨f, rfl⟩ : ∃ f, fuel = f + 1 := ⟨fuel - 1, by omega⟩
      rw [jparse, pdump, qstr_append, dropWs_not '"' (by decide)]
      split
      · rename_i r heq
        injection heq with _ hr
        subst hr
        rw [strTail_escBody]
        rfl
      · rename_i r heq
        injection heq with h1 _
        exact absurd h1 (by decide)
      · rename_i r heq
        injection heq with h1 _
        exact absurd h1 (by decide)
      · rename_i x c r hg1 hg2 hg3 heq
        injection heq with hc _
        exact absurd hc.symm hg1
      · rename_i heq
        cases heq
    | int i =>
      rw [jfuel] at hfuel
      obtain ⟨f, rfl⟩ : ∃ f, fuel = f + 1 := ⟨fuel - 1, by omega⟩
      obtain ⟨c, t, hct, hc⟩ := intChars_head i
      obtain ⟨hw, hq, hlb, hbr, _, _⟩ := numHead_props c hc
      have htok : ∀ y ∈ intChars i, numTokChar y = true := by
        intro y hy
        rcases intChars_all i y hy with hd | hm
        · exact digit_numTokChar hd
        · subst hm
          decide
      rw [jparse, pdump, hct, List.cons_append, dropWs_not c hw]
      split
      · rename_i r heq
        injection heq with h1 _
        exact absurd h1 hq
      · rename_i r heq
        injection heq with h1 _
        exact absurd h1 hlb
      · rename_i r heq
        injection heq with h1 _
        exact absurd h1 hbr
      · rename_i x c' r hg1 hg2 hg3 heq
        injection heq with hc' hr
        subst hc'
        subst hr
        rw [if_pos hc]
        have hns : numSpan (c :: (t ++ rest)) = (intChars i, rest) := by
          rw [← List.cons_append, ← hct]
          exact numSpan_append _ _ htok hstop
        rw [hns]
        show Option.map (fun j => (j, rest)) (numFromTok fparse (intChars i)) =
          some (Json.int i, rest)
        rw [numFromTok_intChars]
        rfl
      · rename_i heq
        cases heq
    | num xv =>
      rw [jfuel] at hfuel
      obtain ⟨f, rfl⟩ : ∃ f, fuel = f + 1 := ⟨fuel - 1, by omega⟩
      obtain ⟨c, t, hct, hc⟩ := hfhead xv
      obtain ⟨hw, hq, hlb, hbr, _, _⟩ := numHead_props c hc
      rw [jparse, pdump, hct, List.cons_append, dropWs_not c hw]
      split
      · rename_i r heq
        injection heq with h1 _
        exact absurd h1 hq
      · rename_i r heq
        injection heq with h1 _
        exact absurd h1 hlb
      · rename_i r heq
        injection heq with h1 _
        exact absurd h1 hbr
      · rename_i x c' r hg1 hg2 hg3 heq
        injection heq with hc' hr
        subst hc'
        subst hr
        rw [if_pos hc]
        have hns : numSpan (c :: (t ++ rest)) = (frender xv, rest) := by
          rw [← List.cons_append, ← hct]
          exact numSpan_append _ _ (hfchars xv) hstop
        rw [hns]
        show Option.map (fun j => (j, rest)) (numFromTok fparse (frender xv)) =
          some (Json.num xv, rest)
        rw [numFromTok_frender fparse frender hfp hfmark]
        rfl
      · rename_i heq
        cases heq
    | arr es =>
      cases es with
      | nil =>
        rw [jfuel] at hfuel
        obtain ⟨f, rfl⟩ : ∃ f, fuel = f + 1 := ⟨fuel - 1, by omega⟩
        rw [jparse, pdump]
        rw [show (['[', ']'] : List Char) ++ rest = '[' :: ']' :: rest from rfl,
          dropWs_not '[' (by decide)]
        split
        · rename_i r heq
          injection heq with h1 _
          exact absurd h1 (by decide)
        · rename_i r heq
          injection heq with _ hr
          subst hr
          rw [dropWs_not ']' (by decide)]
          split
          · rename_i r2 heq2
            injection heq2 with _ hr2
            subst hr2
            rfl
          · rename_i r2 hg
            exact absurd rfl (hg rest)
        · rename_i r heq
          injection heq with h1 _
          exact absurd h1 (by decide)
        · rename_i x c r hg1 hg2 hg3 heq
          injection heq with hc _
          exact absurd hc.symm hg2
        · rename_i heq
          cases heq
      | cons e es =>
        rw [jfuel] at hfuel
        obtain ⟨f, rfl⟩ : ∃ f, fuel = f + 1 := ⟨fuel - 1, by omega⟩
        have hfI : jfuelItems e es ≤ f := by omega
        obtain ⟨c, t, hct, hw, h5, h6⟩ := pdumpItems_head frender hfhead (lvl + 1) e es
        rw [jparse, pdump, List.cons_append, List.cons_append,
          dropWs_not '[' (by decide)]
        split
        · rename_i r heq
          injection heq with h1 _
          exact absurd h1 (by decide)
        · rename_i r heq
          injection heq with _ hr
          subst hr
          have hdr : dropWs ('\n' :: ((indentChars (lvl + 1) ++
              (pdumpItems frender (lvl + 1) e es ++
                '\n' :: (indentChars lvl ++ [']']))) ++ rest)) =
              c :: (t ++ ('\n' :: ((indentChars lvl ++ [']']) ++ rest))) := by
            rw [dropWs_nl, List.append_assoc, dropWs_indent, List.append_assoc,
              List.cons_append, hct, List.cons_append, dropWs_not c hw]
          rw [hdr]
          split
          · rename_i r2 heq2
            injection heq2 with h1 _
            exact absurd h1 h5
          · rename_i hg heq2
            have hback : (c :: (t ++ ('\n' :: ((indentChars lvl ++ [']']) ++ rest)))
                : List Char) = pdumpItems frender (lvl + 1) e es ++
                  ('\n' :: ((indentChars lvl ++ [']']) ++ rest)) := by
              rw [hct, List.cons_append]
            rw [hback]
            rw [(ih f (by omega)).2.1 (lvl + 1) e es
              ('\n' :: ((indentChars lvl ++ [']']) ++ rest)) rest hfI
              (by rw [dropWs_nl, List.append_assoc, dropWs_indent,
                List.singleton_append, dropWs_not ']' (by decide)])
              (numStop_cons '\n' (by decide) _)]
            rfl
        · rename_i r heq
          injection heq with h1 _
          exact absurd h1 (by decide)
        · rename_i x c' r hg1 hg2 hg3 heq
          injection heq with hc' _
          exact absurd hc'.symm hg2
        · rename_i heq
          cases heq
    | obj ms =>
      cases ms with
      | nil =>
        rw [jfuel] at hfuel
        obtain ⟨f, rfl⟩ : ∃ f, fuel = f + 1 := ⟨fuel - 1, by omega⟩
        rw [jparse, pdump]
        rw [show (['{', '}'] : List Char) ++ rest = '{' :: '}' :: rest from rfl,
          dropWs_not '{' (by decide)]
        split
        · rename_i r heq
          injection heq with h1 _
          exact absurd h1 (by decide)
        · rename_i r heq
          injection heq with h1 _
          exact absurd h1 (by decide)
        · rename_i r heq
          injection heq with _ hr
          subst hr
          rw [dropWs_not '}' (by decide)]
          split
          · rename_i r2 heq2
            injection heq2 with _ hr2
            subst hr2
            rfl
          · rename_i r2 hg
            exact absurd rfl (hg rest)
        · rename_i x c r hg1 hg2 hg3 heq
          injection heq with hc _
          exact absurd hc.symm hg3
        · rename_i heq
          cases heq
      | cons m ms =>
        rw [jfuel] at hfuel
        obtain ⟨f, rfl⟩ : ∃ f, fuel = f + 1 := ⟨fuel - 1, by omega⟩
        have hfE : jfuelEntries m ms ≤ f := by omega
        obtain ⟨t, hct⟩ := pdumpEntries_head frender (lvl + 1) m ms
        rw [jparse, pdump, List.cons_append, List.cons_append,
          dropWs_not '{' (by decide)]
        split
        · rename_i r heq
          injection heq with h1 _
          exact absurd h1 (by decide)
        · rename_i r heq
          injection heq with h1 _
          exact absurd h1 (by decide)
        · rename_i r heq
          injection heq with _ hr
          subst hr
          have hdr : dropWs ('\n' :: ((indentChars (lvl + 1) ++
              (pdumpEntries frender (lvl + 1) m ms ++
                '\n' :: (indentChars lvl ++ ['}']))) ++ rest)) =
              '"' :: (t ++ ('\n' :: ((indentChars lvl ++ ['}']) ++ rest))) := by
            rw [dropWs_nl, List.append_assoc, dropWs_indent, List.append_assoc,
              List.cons_append, hct, List.cons_append, dropWs_not '"' (by decide)]
          rw [hdr]
          split
          · rename_i r2 heq2
            injection heq2 with h1 _
            exact absurd h1 (by decide)
          · rename_i hg heq2
            have hback : ('"' :: (t ++ ('\n' :: ((indentChars lvl ++ ['}']) ++ rest)))
                : List Char) = pdumpEntries frender (lvl + 1) m ms ++
                  ('\n' :: ((indentChars lvl ++ ['}']) ++ rest)) := by
              rw [hct, List.cons_append]
            rw [hback]
            rw [(ih f (by omega)).2.2 (lvl + 1) m ms
              ('\n' :: ((indentChars lvl ++ ['}']) ++ rest)) rest hfE
              (by rw [dropWs_nl, List.append_assoc, dropWs_indent,
                List.singleton_append, dropWs_not '}' (by decide)])
              (numStop_cons '\n' (by decide) _)]
            rfl
        · rename_i x c r hg1 hg2 hg3 heq
          injection heq with hc _
          exact absurd hc.symm hg3
        · rename_i heq
          cases heq

  · intro lvl e es tail rest hfuel htail hstop
    cases es with
    | nil =>
      rw [jfuelItems] at hfuel
      obtain ⟨f, rfl⟩ : ∃ f, fuel = f + 1 := ⟨fuel - 1, by omega⟩
      rw [jparseItems, pdumpItems]
      rw [(ih f (by omega)).1 lvl e tail
        (by omega) hstop]
      split
      · rename_i heq
        cases heq
      · rename_i v r heq
        injection heq with hp
        injection hp with hv hr
        subst hv
        subst hr
        rw [htail]
        split
        · rename_i r2 heq2
          injection heq2 with h1 _
          exact absurd h1 (by decide)
        · rename_i r2 heq2
          injection heq2 with _ hr2
          subst hr2
          rfl
        · rename_i hg1 hg2
          exact absurd rfl (hg2 rest)
    | cons e2 es =>
      rw [jfuelItems] at hfuel
      obtain ⟨f, rfl⟩ : ∃ f, fuel = f + 1 := ⟨fuel - 1, by omega⟩
      rw [jparseItems, pdumpItems, List.append_assoc, List.cons_append,
        List.cons_append]
      rw [(ih f (by omega)).1 lvl e
        (',' :: '\n' :: ((indentChars lvl ++ pdumpItems frender lvl e2 es) ++ tail))
        (by omega) (numStop_cons ',' (by decide) _)]
      split
      · rename_i heq
        cases heq
      · rename_i v r heq
        injection heq with hp
        injection hp with hv hr
        subst hv
        subst hr
        rw [dropWs_not ',' (by decide)]
        split
        · rename_i r2 heq2
          injection heq2 with _ hr2
          subst hr2
          rw [jparseItems_congr fparse f _ (pdumpItems frender lvl e2 es ++ tail)
            (by rw [dropWs_nl, List.append_assoc, dropWs_indent])]
          rw [(ih f (by omega)).2.1 lvl e2 es tail
            rest (by omega) htail hstop]
          rfl
        · rename_i r2 heq2
          injection heq2 with h1 _
          exact absurd h1 (by decide)
        · rename_i hg1 hg2
          exact absurd rfl (hg1 _)

  · intro lvl m ms tail rest hfuel htail hstop
    obtain ⟨k, v⟩ := m
    cases ms with
    | nil =>
      rw [jfuelEntries] at hfuel
      obtain ⟨f, rfl⟩ : ∃ f, fuel = f + 1 := ⟨fuel - 1, by omega⟩
      rw [jparseEntries, pdumpEntries, List.append_assoc, List.cons_append,
        List.cons_append, qstr_append, dropWs_not '"' (by decide)]
      split
      · rename_i r heq
        injection heq with _ hr
        subst hr
        rw [strTail_escBody]
        split
        · rename_i heq2
          cases heq2
        · rename_i kcs r1 heq2
          injection heq2 with hp
          injection hp with hk hr1
          subst hk
          subst hr1
          rw [dropWs_not ':' (by decide)]
          split
          · rename_i r2 heq3
            injection heq3 with _ hr2
            subst hr2
            rw [jparse_congr fparse f _ (pdump frender lvl v ++ tail)
              (by rw [dropWs_ws ' ' (by decide)])]
            rw [(ih f (by omega)).1 lvl v tail
              (by omega) hstop]
            split
            · rename_i heq4
              cases heq4
            · rename_i v2 r3 heq4
              injection heq4 with hp2
              injection hp2 with hv2 hr3
              subst hv2
              subst hr3
              rw [htail]
              split
              · rename_i r4 heq5
                injection heq5 with h1 _
                exact absurd h1 (by decide)
              · rename_i r4 heq5
                injection heq5 with _ hr4
                subst hr4
                rfl
              · rename_i hg1 hg2
                exact absurd rfl (hg2 rest)
          · rename_i r2 hg
            exact absurd rfl (hg _)
      · rename_i r hg
        exact absurd rfl (hg _)
    | cons m2 ms =>
      rw [jfuelEntries] at hfuel
      obtain ⟨f, rfl⟩ : ∃ f, fuel = f + 1 := ⟨fuel - 1, by omega⟩
      rw [jparseEntries, pdumpEntries, List.append_assoc, List.append_assoc,
        List.cons_append, List.cons_append, qstr_append,
        dropWs_not '"' (by decide)]
      split
      · rename_i r heq
        injection heq with _ hr
        subst hr
        rw [strTail_escBody]
        split
        · rename_i heq2
          cases heq2
        · rename_i kcs r1 heq2
          injection heq2 with hp
          injection hp with hk hr1
          subst hk
          subst hr1
          rw [dropWs_not ':' (by decide)]
          split
          · rename_i r2 heq3
            injection heq3 with _ hr2
            subst hr2
            rw [jparse_congr fparse f _ (pdump frender lvl v ++
                (',' :: '\n' :: (indentChars lvl ++
                  (pdumpEntries frender lvl m2 ms ++ tail))))
              (by rw [dropWs_ws ' ' (by decide), List.cons_append,
                List.cons_append, List.append_assoc])]
            rw [(ih f (by omega)).1 lvl v
              (',' :: '\n' :: (indentChars lvl ++
                (pdumpEntries frender lvl m2 ms ++ tail)))
              (by omega) (numStop_cons ',' (by decide) _)]
            split
            · rename_i heq4
              cases heq4
            · rename_i v2 r3 heq4
              injection heq4 with hp2
              injection hp2 with hv2 hr3
              subst hv2
              subst hr3
              rw [dropWs_not ',' (by decide)]
              split
              · rename_i r4 heq5
                injection heq5 with _ hr4
                subst hr4
                rw [jparseEntries_congr fparse f _
                  (pdumpEntries frender lvl m2 ms ++ tail)
                  (by rw [dropWs_nl, dropWs_indent])]
                rw [(ih f (by omega)).2.2 lvl m2 ms tail rest (by omega)
                  htail hstop]
                rfl
              · rename_i r4 heq5
                injection heq5 with h1 _
                exact absurd h1 (by decide)
              · rename_i hg1 hg2
                exact absurd rfl (hg1 _)
          · rename_i r2 hg
            exact absurd rfl (hg _)
      · rename_i r hg
        exact absurd rfl (hg _)

/-- The fuel measures are bounded by the rendered lengths (so the
length-based fuel `json.loads` runs with is always sufficient).  Proved
by strong induction on the value size. -/
theorem jfuel_le_all {F : Type} (frender : F → List Char) (n : Nat) :
    (∀ (lvl : Nat) (j : Json F), sizeOf j ≤ n →
      jfuel j ≤ (pdump frender lvl j).length + 1) ∧
    (∀ (lvl : Nat) (e : Json F) (es : List (Json F)), sizeOf e + sizeOf es ≤ n →
      jfuelItems e es ≤ (pdumpItems frender lvl e es).length + 2) ∧
    (∀ (lvl : Nat) (m : String × Json F) (ms : List (String × Json F)),
      sizeOf m + sizeOf ms ≤ n →
      jfuelEntries m ms ≤ (pdumpEntries frender lvl m ms).length + 2) := by
  induction n using Nat.strong_induction_on with
  | _ n ih =>
  refine ⟨?_, ?_, ?_⟩
  · intro lvl j hsz
    cases j with
    | str s =>
      rw [jfuel]
      omega
    | int i =>
      rw [jfuel]
      omega
    | num x =>
      rw [jfuel]
      omega
    | arr es =>
      cases es with
      | nil =>
        rw [jfuel]
        omega
      | cons e es =>
        simp only [Json.arr.sizeOf_spec, List.cons.sizeOf_spec] at hsz
        have hI := (ih (sizeOf e + sizeOf es) (by omega)).2.1 (lvl + 1) e es
          (le_refl _)
        rw [jfuel, pdump]
        simp only [List.length_cons, List.length_append, indentChars,
          List.length_replicate]
        omega
    | obj ms =>
      cases ms with
      | nil =>
        rw [jfuel]
        omega
      | cons m ms =>
        simp only [Json.obj.sizeOf_spec, List.cons.sizeOf_spec] at hsz
        have hE := (ih (sizeOf m + sizeOf ms) (by omega)).2.2 (lvl + 1) m ms
          (le_refl _)
        rw [jfuel, pdump]
        simp only [List.length_cons, List.length_append, indentChars,
          List.length_replicate]
        omega
  · intro lvl e es hsz
    cases es with
    | nil =>
      simp only [List.nil.sizeOf_spec] at hsz
      have hV := (ih (sizeOf e) (by omega)).1 lvl e (le_refl _)
      rw [jfuelItems, pdumpItems]
      omega
    | cons e2 es =>
      simp only [List.cons.sizeOf_spec] at hsz
      have hV := (ih (sizeOf e) (by omega)).1 lvl e (le_refl _)
      have hI := (ih (sizeOf e2 + sizeOf es) (by omega)).2.1 lvl e2 es (le_refl _)
      rw [jfuelItems, pdumpItems]
      simp only [List.length_append, List.length_cons, indentChars,
        List.length_replicate]
      omega
  · intro lvl m ms hsz
    obtain ⟨k, v⟩ := m
    cases ms with
    | nil =>
      simp only [List.nil.sizeOf_spec, Prod.mk.sizeOf_spec] at hsz
      have hV := (ih (sizeOf v) (by omega)).1 lvl v (le_refl _)
      rw [jfuelEntries, pdumpEntries]
      simp only [List.length_append, List.length_cons]
      omega
    | cons m2 ms =>
      simp only [List.cons.sizeOf_spec, Prod.mk.sizeOf_spec] at hsz
      have hV := (ih (sizeOf v) (by omega)).1 lvl v (le_refl _)
      have hE := (ih (sizeOf m2 + sizeOf ms) (by omega)).2.2 lvl m2 ms (le_refl _)
      rw [jfuelEntries, pdumpEntries]
      simp only [List.length_append, List.length_cons, indentChars,
        List.length_replicate]
      omega

/-- `json.loads` inverts `json.dumps(indent=2)` on every value
(`numStop [] = true`, no trailing text). -/
theorem jloads_pdumps {F : Type} (fparse : List Char → Option F)
    (frender : F → List Char)
    (hfp : ∀ x, fparse (frender x) = some x)
    (hfchars : ∀ x, ∀ c ∈ frender x, numTokChar c = true)
    (hfmark : ∀ x,
      (frender x).any (fun c => c = '.' || c = 'e' || c = 'E') = true)
    (hfhead : ∀ x, ∃ c t, frender x = c :: t ∧
      (c.isDigit || decide (c = '-')) = true)
    (j : Json F) :
    jloads fparse (pdumps frender j) = some j := by
  have hb := (jfuel_le_all frender (sizeOf j)).1 0 j (le_refl _)
  have h1 := (rt_all fparse frender hfp hfchars hfmark hfhead
    ((pdump frender 0 j).length + 1)).1 0 j [] (by omega) rfl
  rw [List.append_nil] at h1
  unfold jloads pdumps
  rw [show (String.mk (pdump frender 0 j)).data = pdump frender 0 j from rfl]
  rw [h1]
  rfl

/-- Decoding the structured-text wire bytes inverts encoding: UTF-8
round-trips, then the parse round-trips. -/
theorem decodeJsonBytes_encodeJsonBytes {F : Type}
    (fparse : List Char → Option F) (frender : F → List Char)
    (hfp : ∀ x, fparse (frender x) = some x)
    (hfchars : ∀ x, ∀ c ∈ frender x, numTokChar c = true)
    (hfmark : ∀ x,
      (frender x).any (fun c => c = '.' || c = 'e' || c = 'E') = true)
    (hfhead : ∀ x, ∃ c t, frender x = c :: t ∧
      (c.isDigit || decide (c = '-')) = true)
    (j : Json F) :
    decodeJsonBytes fparse (encodeJsonBytes frender j) = some j := by
  unfold decodeJsonBytes encodeJsonBytes strBytes
  rw [utf8Un_utf8_eq]
  show jloads fparse (String.mk (pdumps frender j).data) = some j
  rw [show String.mk (pdumps frender j).data = pdumps frender j from rfl]
  exact jloads_pdumps fparse frender hfp hfchars hfmark hfhead j

/-! ## CBOR round-trip: header and byte-string lemmas -/

theorem beBytes_length (k n : Nat) : (beBytes k n).length = k := by
  induction k generalizing n with
  | zero => rfl
  | succ k ih =>
    rw [beBytes, List.length_append, ih]
    rfl

theorem beBytes_foldl (k : Nat) : ∀ (n acc : Nat), n < 256 ^ k →
    (beBytes k n).foldl (fun a b => a * 256 + b) acc = acc * 256 ^ k + n := by
  induction k with
  | zero =>
    intro n acc h
    have : n = 0 := by omega
    subst this
    simp [beBytes]
  | succ k ih =>
    intro n acc h
    have hdiv : n / 256 < 256 ^ k := by
      rw [Nat.div_lt_iff_lt_mul (by omega)]
      calc n < 256 ^ (k + 1) := h
        _ = 256 ^ k * 256 := by rw [pow_succ]
    rw [beBytes, List.foldl_append, ih (n / 256) acc hdiv]
    show (acc * 256 ^ k + n / 256) * 256 + n % 256 = acc * 256 ^ (k + 1) + n
    calc (acc * 256 ^ k + n / 256) * 256 + n % 256
        = acc * (256 ^ k * 256) + (256 * (n / 256) + n % 256) := by ring
      _ = acc * 256 ^ (k + 1) + n := by rw [Nat.div_add_mod, pow_succ]

theorem readBE_exact : ∀ (xs : List Nat) (acc : Nat) (rest : List Nat),
    readBE xs.length acc (xs ++ rest) =
      some (xs.foldl (fun a b => a * 256 + b) acc, rest) := by
  intro xs
  induction xs with
  | nil => intro acc rest; rfl
  | cons b bs ih =>
    intro acc rest
    rw [List.length_cons, List.cons_append, readBE, ih]
    rfl

theorem readBE_beBytes0 (k n : Nat) (rest : List Nat) (h : n < 256 ^ k) :
    readBE k 0 (beBytes k n ++ rest) = some (n, rest) := by
  have h1 := readBE_exact (beBytes k n) 0 rest
  rw [beBytes_length] at h1
  rw [h1, beBytes_foldl k n 0 h]
  norm_num

theorem takeBytes_exact : ∀ (xs rest : List Nat),
    takeBytes xs.length (xs ++ rest) = some (xs, rest) := by
  intro xs
  induction xs with
  | nil => intro rest; rfl
  | cons b bs ih =>
    intro rest
    rw [List.length_cons, List.cons_append, takeBytes, ih]
    rfl

theorem natBytesBE_val (n : Nat) : bytesVal (natBytesBE n) = n := by
  induction n using Nat.strong_induction_on with
  | _ n ih =>
  rw [natBytesBE]
  by_cases h : n = 0
  · rw [if_pos h, h]
    rfl
  · rw [if_neg h]
    have hlt := ih (n / 256) (Nat.div_lt_self (Nat.pos_of_ne_zero h) (by omega))
    unfold bytesVal at hlt ⊢
    rw [List.foldl_append, hlt]
    show n / 256 * 256 + n % 256 = n
    omega

/-- CBOR headers of the data major types start below the float byte
`0xFB` (indeed below `0xE0`). -/
theorem cborHead_head (m n : Nat) (hm : m ≤ 6) :
    ∃ b t, cborHead m n = b :: t ∧ b < 224 := by
  unfold cborHead
  by_cases h1 : n < 24
  · rw [if_pos h1]
    exact ⟨32 * m + n, [], rfl, by omega⟩
  rw [if_neg h1]
  by_cases h2 : n < 256
  · rw [if_pos h2]
    exact ⟨32 * m + 24, [n], rfl, by omega⟩
  rw [if_neg h2]
  by_cases h3 : n < 65536
  · rw [if_pos h3]
    exact ⟨32 * m + 25, beBytes 2 n, rfl, by omega⟩
  rw [if_neg h3]
  by_cases h4 : n < 4294967296
  · rw [if_pos h4]
    exact ⟨32 * m + 26, beBytes 4 n, rfl, by omega⟩
  · rw [if_neg h4]
    exact ⟨32 * m + 27, beBytes 8 n, rfl, by omega⟩

/-- One-step unfolding of `cborReadHead` on a nonempty byte string. -/
theorem cborReadHead_cons (b : Nat) (bs : List Nat) :
    cborReadHead (b :: bs) =
      (if b % 32 < 24 then some (b / 32, b % 32, bs)
       else if b % 32 = 24 then
         match bs with
         | v :: r => some (b / 32, v, r)
         | [] => none
       else if b % 32 = 25 then (readBE 2 0 bs).map (fun p => (b / 32, p.1, p.2))
       else if b % 32 = 26 then (readBE 4 0 bs).map (fun p => (b / 32, p.1, p.2))
       else if b % 32 = 27 then (readBE 8 0 bs).map (fun p => (b / 32, p.1, p.2))
       else none) := by
  rw [cborReadHead.eq_def]

/-- Reading back a shortest-form header recovers the major type and
argument (the argument must fit the largest, 8-byte form). -/
theorem cborReadHead_cborHead (m n : Nat) (rest : List Nat)
    (hn : n < 18446744073709551616) :
    cborReadHead (cborHead m n ++ rest) = some (m, n, rest) := by
  unfold cborHead
  by_cases h1 : n < 24
  · rw [if_pos h1, List.singleton_append, cborReadHead_cons]
    have hdiv : (32 * m + n) / 32 = m := by omega
    have hmod : (32 * m + n) % 32 = n := by omega
    rw [hdiv, hmod, if_pos h1]
  · rw [if_neg h1]
    by_cases h2 : n < 256
    · rw [if_pos h2]
      rw [show ([32 * m + 24, n] : List Nat) ++ rest = (32 * m + 24) ::
        (n :: rest) from rfl, cborReadHead_cons]
      have hdiv : (32 * m + 24) / 32 = m := by omega
      have hmod : (32 * m + 24) % 32 = 24 := by omega
      rw [hdiv, hmod, if_neg (by omega), if_pos rfl]
    · rw [if_neg h2]
      by_cases h3 : n < 65536
      · rw [if_pos h3, List.cons_append, cborReadHead_cons]
        have hdiv : (32 * m + 25) / 32 = m := by omega
        have hmod : (32 * m + 25) % 32 = 25 := by omega
        rw [hdiv, hmod, if_neg (by omega), if_neg (by omega), if_pos rfl,
          readBE_beBytes0 2 n rest (by
            have hp : (256 : Nat) ^ 2 = 65536 := by norm_num
            omega)]
        rfl
      · rw [if_neg h3]
        by_cases h4 : n < 4294967296
        · rw [if_pos h4, List.cons_append, cborReadHead_cons]
          have hdiv : (32 * m + 26) / 32 = m := by omega
          have hmod : (32 * m + 26) % 32 = 26 := by omega
          rw [hdiv, hmod, if_neg (by omega), if_neg (by omega),
            if_neg (by omega), if_pos rfl,
            readBE_beBytes0 4 n rest (by
              have hp : (256 : Nat) ^ 4 = 4294967296 := by norm_num
              omega)]
          rfl
        · rw [if_neg h4, List.cons_append, cborReadHead_cons]
          have hdiv : (32 * m + 27) / 32 = m := by omega
          have hmod : (32 * m + 27) % 32 = 27 := by omega
          rw [hdiv, hmod, if_neg (by omega), if_neg (by omega),
            if_neg (by omega), if_neg (by omega), if_pos rfl,
            readBE_beBytes0 8 n rest (by
              have hp : (256 : Nat) ^ 8 = 18446744073709551616 := by norm_num
              omega)]
          rfl


/-- Decoding the CBOR encoding of a value (under the physical-size
condition) recovers it exactly; proved for the three decoders
simultaneously by strong induction on the fuel. -/
theorem crt_all {F : Type} (ffrom : List Nat → Option F) (fbytes : F → List Nat)
    (hfb : ∀ x, (fbytes x).length = 8)
    (hff : ∀ x, ffrom (fbytes x) = some x)
    (fuel : Nat) :
    (∀ (j : Json F) (rest : List Nat), cfuel j ≤ fuel → cborSizesOk j = true →
      cborLoad ffrom fuel (cborDump fbytes j ++ rest) = some (j, rest)) ∧
    (∀ (es : List (Json F)) (rest : List Nat), cfuelList es ≤ fuel →
      cborSizesOkList es = true →
      cborLoadList ffrom fuel es.length (cborDumpList fbytes es ++ rest) =
        some (es, rest)) ∧
    (∀ (ms : List (String × Json F)) (rest : List Nat), cfuelEntries ms ≤ fuel →
      cborSizesOkEntries ms = true →
      cborLoadEntries ffrom fuel ms.length (cborDumpEntries fbytes ms ++ rest) =
        some (ms, rest)) := by
  induction fuel using Nat.strong_induction_on with
  | _ fuel ih =>
  have hval : ∀ (j : Json F) (rest : List Nat), cfuel j ≤ fuel →
      cborSizesOk j = true →
      cborLoad ffrom fuel (cborDump fbytes j ++ rest) = some (j, rest) := by
    intro j rest hfuel hok
    cases j with
    | str s =>
      rw [cfuel] at hfuel
      obtain ⟨f, rfl⟩ : ∃ f, fuel = f + 1 := ⟨fuel - 1, by omega⟩
      simp only [cborSizesOk, decide_eq_true_eq] at hok
      obtain ⟨b, t, hbt, hblt⟩ := cborHead_head 3 (strBytes s).length (by omega)
      have hback : (b :: (t ++ (strBytes s ++ rest)) : List Nat) =
          cborHead 3 (strBytes s).length ++ (strBytes s ++ rest) := by
        rw [hbt, List.cons_append]
      rw [cborDump, List.append_assoc, hbt, List.cons_append, cborLoad]
      split
      · rename_i heq
        rw [hback, cborReadHead_cborHead 3 _ _ hok] at heq
        cases heq
      · rename_i m v r heq
        rw [hback, cborReadHead_cborHead 3 _ _ hok] at heq
        injection heq with hp
        injection hp with hm hp
        injection hp with hv hr
        subst hm; subst hv; subst hr
        rw [if_neg (by decide), if_neg (by decide), if_pos rfl,
          takeBytes_exact]
        split
        · rename_i seg r2 heq2
          injection heq2 with hp2
          injection hp2 with hseg hr2
          subst hseg; subst hr2
          rw [show strBytes s = utf8 s.data from rfl, utf8Un_utf8_eq]
        · rename_i heq2
          cases heq2
      · intro r hr
        injection hr with h1 _
        omega
    | int i =>
      rw [cfuel] at hfuel
      obtain ⟨f, rfl⟩ : ∃ f, fuel = f + 1 := ⟨fuel - 1, by omega⟩
      simp only [cborSizesOk, Bool.or_eq_true, decide_eq_true_eq] at hok
      rw [cborDump]
      unfold cborInt
      by_cases h0 : 0 ≤ i
      · rw [if_pos h0]
        rw [if_pos h0] at hok
        by_cases hsm : i.toNat < 18446744073709551616
        · rw [if_pos hsm]
          obtain ⟨b, t, hbt, hblt⟩ := cborHead_head 0 i.toNat (by omega)
          have hback : (b :: (t ++ rest) : List Nat) =
              cborHead 0 i.toNat ++ rest := by
            rw [hbt, List.cons_append]
          rw [hbt, List.cons_append, cborLoad]
          split
          · rename_i heq
            rw [hback, cborReadHead_cborHead 0 _ _ hsm] at heq
            cases heq
          · rename_i m v r heq
            rw [hback, cborReadHead_cborHead 0 _ _ hsm] at heq
            injection heq with hp
            injection hp with hm hp
            injection hp with hv hr
            subst hm; subst hv; subst hr
            rw [if_pos rfl, Int.toNat_of_nonneg h0]
          · intro r hr
            injection hr with h1 _
            omega
        · rw [if_neg hsm]
          have hlen : (natBytesBE i.toNat).length < 18446744073709551616 := by
            rcases hok with h | h
            · omega
            · exact h
          rw [List.append_assoc, List.append_assoc]
          obtain ⟨b, t, hbt, hblt⟩ := cborHead_head 6 2 (by omega)
          have hback : (b :: (t ++
              (cborHead 2 (natBytesBE i.toNat).length ++
                (natBytesBE i.toNat ++ rest))) : List Nat) =
              cborHead 6 2 ++ (cborHead 2 (natBytesBE i.toNat).length ++
                (natBytesBE i.toNat ++ rest)) := by
            rw [hbt, List.cons_append]
          rw [hbt, List.cons_append, cborLoad]
          split
          · rename_i heq
            rw [hback, cborReadHead_cborHead 6 2 _ (by omega)] at heq
            cases heq
          · rename_i m v r heq
            rw [hback, cborReadHead_cborHead 6 2 _ (by omega)] at heq
            injection heq with hp
            injection hp with hm hp
            injection hp with hv hr
            subst hm; subst hv; subst hr
            rw [if_neg (by decide), if_neg (by decide), if_neg (by decide),
              if_neg (by decide), if_neg (by decide),
              if_pos ⟨rfl, Or.inl rfl⟩]
            rw [cborReadHead_cborHead 2 _ _ hlen]
            split
            · rename_i m2 len r2 heq2
              injection heq2 with hp2
              injection hp2 with hm2 hp2
              injection hp2 with hlen2 hr2
              subst hm2; subst hlen2; subst hr2
              rw [if_pos rfl, takeBytes_exact]
              split
              · rename_i seg r3 heq3
                injection heq3 with hp3
                injection hp3 with hseg hr3
                subst hseg; subst hr3
                rw [if_pos rfl, natBytesBE_val, Int.toNat_of_nonneg h0]
              · rename_i heq3
                cases heq3
            · rename_i heq2
              cases heq2
          · intro r hr
            injection hr with h1 _
            omega
      · rw [if_neg h0]
        rw [if_neg h0] at hok
        by_cases hsm : (-1 - i).toNat < 18446744073709551616
        · rw [if_pos hsm]
          obtain ⟨b, t, hbt, hblt⟩ := cborHead_head 1 (-1 - i).toNat (by omega)
          have hback : (b :: (t ++ rest) : List Nat) =
              cborHead 1 (-1 - i).toNat ++ rest := by
            rw [hbt, List.cons_append]
          rw [hbt, List.cons_append, cborLoad]
          split
          · rename_i heq
            rw [hback, cborReadHead_cborHead 1 _ _ hsm] at heq
            cases heq
          · rename_i m v r heq
            rw [hback, cborReadHead_cborHead 1 _ _ hsm] at heq
            injection heq with hp
            injection hp with hm hp
            injection hp with hv hr
            subst hm; subst hv; subst hr
            rw [if_neg (by decide), if_pos rfl,
              Int.toNat_of_nonneg (by omega : (0 : Int) ≤ -1 - i)]
            have he : (-1 - (-1 - i) : Int) = i := by ring
            rw [he]
          · intro r hr
            injection hr with h1 _
            omega
        · rw [if_neg hsm]
          have hlen : (natBytesBE (-1 - i).toNat).length <
              18446744073709551616 := by
            rcases hok with h | h
            · omega
            · exact h
          rw [List.append_assoc, List.append_assoc]
          obtain ⟨b, t, hbt, hblt⟩ := cborHead_head 6 3 (by omega)
          have hback : (b :: (t ++
              (cborHead 2 (natBytesBE (-1 - i).toNat).length ++
                (natBytesBE (-1 - i).toNat ++ rest))) : List Nat) =
              cborHead 6 3 ++ (cborHead 2 (natBytesBE (-1 - i).toNat).length ++
                (natBytesBE (-1 - i).toNat ++ rest)) := by
            rw [hbt, List.cons_append]
          rw [hbt, List.cons_append, cborLoad]
          split
          · rename_i heq
            rw [hback, cborReadHead_cborHead 6 3 _ (by omega)] at heq
            cases heq
          · rename_i m v r heq
            rw [hback, cborReadHead_cborHead 6 3 _ (by omega)] at heq
            injection heq with hp
            injection hp with hm hp
            injection hp with hv hr
            subst hm; subst hv; subst hr
            rw [if_neg (by decide), if_neg (by decide), if_neg (by decide),
              if_neg (by decide), if_neg (by decide),
              if_pos ⟨rfl, Or.inr rfl⟩]
            rw [cborReadHead_cborHead 2 _ _ hlen]
            split
            · rename_i m2 len r2 heq2
              injection heq2 with hp2
              injection hp2 with hm2 hp2
              injection hp2 with hlen2 hr2
              subst hm2; subst hlen2; subst hr2
              rw [if_pos rfl, takeBytes_exact]
              split
              · rename_i seg r3 heq3
                injection heq3 with hp3
                injection hp3 with hseg hr3
                subst hseg; subst hr3
                rw [if_neg (by decide), natBytesBE_val,
                  Int.toNat_of_nonneg (by omega : (0 : Int) ≤ -1 - i)]
                have he : (-1 - (-1 - i) : Int) = i := by ring
                rw [he]
              · rename_i heq3
                cases heq3
            · rename_i heq2
              cases heq2
          · intro r hr
            injection hr with h1 _
            omega
    | num x =>
      rw [cfuel] at hfuel
      obtain ⟨f, rfl⟩ : ∃ f, fuel = f + 1 := ⟨fuel - 1, by omega⟩
      rw [cborDump, List.cons_append, cborLoad]
      rw [show (8 : Nat) = (fbytes x).length from (hfb x).symm,
        takeBytes_exact]
      split
      · rename_i seg r2 heq2
        injection heq2 with hp
        injection hp with hseg hr2
        subst hseg; subst hr2
        rw [hff x]
        rfl
      · rename_i heq2
        cases heq2
    | arr es =>
      rw [cfuel] at hfuel
      obtain ⟨f, rfl⟩ : ∃ f, fuel = f + 1 := ⟨fuel - 1, by omega⟩
      simp only [cborSizesOk, Bool.and_eq_true, decide_eq_true_eq] at hok
      obtain ⟨hlen, hoklist⟩ := hok
      obtain ⟨b, t, hbt, hblt⟩ := cborHead_head 4 es.length (by omega)
      have hback : (b :: (t ++ (cborDumpList fbytes es ++ rest)) : List Nat) =
          cborHead 4 es.length ++ (cborDumpList fbytes es ++ rest) := by
        rw [hbt, List.cons_append]
      rw [cborDump, List.append_assoc, hbt, List.cons_append, cborLoad]
      split
      · rename_i heq
        rw [hback, cborReadHead_cborHead 4 _ _ hlen] at heq
        cases heq
      · rename_i m v r heq
        rw [hback, cborReadHead_cborHead 4 _ _ hlen] at heq
        injection heq with hp
        injection hp with hm hp
        injection hp with hv hr
        subst hm; subst hv; subst hr
        rw [if_neg (by decide), if_neg (by decide), if_neg (by decide),
          if_pos rfl]
        rw [(ih f (by omega)).2.1 es rest (by omega) hoklist]
        rfl
      · intro r hr
        injection hr with h1 _
        omega
    | obj ms =>
      rw [cfuel] at hfuel
      obtain ⟨f, rfl⟩ : ∃ f, fuel = f + 1 := ⟨fuel - 1, by omega⟩
      simp only [cborSizesOk, Bool.and_eq_true, decide_eq_true_eq] at hok
      obtain ⟨hlen, hokents⟩ := hok
      obtain ⟨b, t, hbt, hblt⟩ := cborHead_head 5 ms.length (by omega)
      have hback : (b :: (t ++ (cborDumpEntries fbytes ms ++ rest)) : List Nat) =
          cborHead 5 ms.length ++ (cborDumpEntries fbytes ms ++ rest) := by
        rw [hbt, List.cons_append]
      rw [cborDump, List.append_assoc, hbt, List.cons_append, cborLoad]
      split
      · rename_i heq
        rw [hback, cborReadHead_cborHead 5 _ _ hlen] at heq
        cases heq
      · rename_i m v r heq
        rw [hback, cborReadHead_cborHead 5 _ _ hlen] at heq
        injection heq with hp
        injection hp with hm hp
        injection hp with hv hr
        subst hm; subst hv; subst hr
        rw [if_neg (by decide), if_neg (by decide), if_neg (by decide),
          if_neg (by decide), if_pos rfl]
        rw [(ih f (by omega)).2.2 ms rest (by omega) hokents]
        rfl
      · intro r hr
        injection hr with h1 _
        omega
  refine ⟨hval, ?_, ?_⟩
  · intro es
    induction es with
    | nil =>
      intro rest _ _
      rw [show cborDumpList fbytes ([] : List (Json F)) = [] from rfl,
        List.nil_append, List.length_nil, cborLoadList]
    | cons e es ihes =>
      intro rest hfuel hok
      simp only [cborSizesOkList, Bool.and_eq_true] at hok
      rw [cfuelList] at hfuel
      rw [cborDumpList, List.append_assoc, List.length_cons, cborLoadList]
      rw [hval e (cborDumpList fbytes es ++ rest) (by omega) hok.1]
      split
      · rename_i v r heq
        injection heq with hp
        injection hp with hv hr
        subst hv; subst hr
        rw [ihes rest (by omega) hok.2]
        rfl
      · rename_i heq
        cases heq
  · intro ms
    induction ms with
    | nil =>
      intro rest _ _
      rw [show cborDumpEntries fbytes ([] : List (String × Json F)) = []
        from rfl, List.nil_append, List.length_nil, cborLoadEntries]
    | cons m ms ihms =>
      obtain ⟨k, v⟩ := m
      intro rest hfuel hok
      simp only [cborSizesOkEntries, Bool.and_eq_true, decide_eq_true_eq] at hok
      obtain ⟨⟨hklen, hokv⟩, hokms⟩ := hok
      rw [cfuelEntries] at hfuel
      rw [cborDumpEntries, List.length_cons, cborLoadEntries]
      rw [List.append_assoc, List.append_assoc, List.append_assoc]
      rw [cborReadHead_cborHead 3 _ _ hklen]
      split
      · rename_i mk klen2 r heq
        injection heq with hp
        injection hp with hm hp
        injection hp with hk2 hr
        subst hm; subst hk2; subst hr
        rw [if_pos rfl, takeBytes_exact]
        split
        · rename_i kseg r1 heq2
          injection heq2 with hp2
          injection hp2 with hk3 hr1
          subst hk3; subst hr1
          rw [show strBytes k = utf8 k.data from rfl, utf8Un_utf8_eq]
          split
          · rename_i kcs heq3
            injection heq3 with hk4
            subst hk4
            rw [hval v (cborDumpEntries fbytes ms ++ rest) (by omega) hokv]
            split
            · rename_i v2 r2 heq4
              injection heq4 with hp4
              injection hp4 with hv2 hr2
              subst hv2; subst hr2
              rw [ihms rest (by omega) hokms]
              rfl
            · rename_i heq4
              cases heq4
          · rename_i heq3
            cases heq3
        · rename_i heq2
          cases heq2
      · rename_i heq
        cases heq

/-- The CBOR fuel measure is bounded by the encoded length (so the
length-based fuel `cbor2.loads` runs with is always sufficient). -/
theorem cfuel_le_all {F : Type} (fbytes : F → List Nat) (n : Nat) :
    (∀ j : Json F, sizeOf j ≤ n → cfuel j ≤ (cborDump fbytes j).length) ∧
    (∀ es : List (Json F), sizeOf es ≤ n →
      cfuelList es ≤ (cborDumpList fbytes es).length) ∧
    (∀ ms : List (String × Json F), sizeOf ms ≤ n →
      cfuelEntries ms ≤ (cborDumpEntries fbytes ms).length) := by
  induction n using Nat.strong_induction_on with
  | _ n ih =>
  refine ⟨?_, ?_, ?_⟩
  · intro j hsz
    cases j with
    | str s =>
      obtain ⟨b, t, hbt, -⟩ := cborHead_head 3 (strBytes s).length (by omega)
      rw [cfuel, cborDump, List.length_append, hbt]
      simp only [List.length_cons]
      omega
    | int i =>
      rw [cfuel, cborDump]
      unfold cborInt
      by_cases h0 : 0 ≤ i
      · rw [if_pos h0]
        by_cases hsm : i.toNat < 18446744073709551616
        · rw [if_pos hsm]
          obtain ⟨b, t, hbt, -⟩ := cborHead_head 0 i.toNat (by omega)
          rw [hbt]
          simp only [List.length_cons]
          omega
        · rw [if_neg hsm]
          obtain ⟨b, t, hbt, -⟩ := cborHead_head 6 2 (by omega)
          rw [hbt]
          simp only [List.cons_append, List.length_append, List.length_cons]
          omega
      · rw [if_neg h0]
        by_cases hsm : (-1 - i).toNat < 18446744073709551616
        · rw [if_pos hsm]
          obtain ⟨b, t, hbt, -⟩ := cborHead_head 1 (-1 - i).toNat (by omega)
          rw [hbt]
          simp only [List.length_cons]
          omega
        · rw [if_neg hsm]
          obtain ⟨b, t, hbt, -⟩ := cborHead_head 6 3 (by omega)
          rw [hbt]
          simp only [List.cons_append, List.length_append, List.length_cons]
          omega
    | num x =>
      rw [cfuel, cborDump]
      simp only [List.length_cons]
      omega
    | arr es =>
      simp only [Json.arr.sizeOf_spec] at hsz
      have hL := (ih (sizeOf es) (by omega)).2.1 es (le_refl _)
      obtain ⟨b, t, hbt, -⟩ := cborHead_head 4 es.length (by omega)
      rw [cfuel, cborDump, List.length_append, hbt]
      simp only [List.length_cons]
      omega
    | obj ms =>
      simp only [Json.obj.sizeOf_spec] at hsz
      have hM := (ih (sizeOf ms) (by omega)).2.2 ms (le_refl _)
      obtain ⟨b, t, hbt, -⟩ := cborHead_head 5 ms.length (by omega)
      rw [cfuel, cborDump, List.length_append, hbt]
      simp only [List.length_cons]
      omega
  · intro es hsz
    cases es with
    | nil =>
      rw [cfuelList]
      omega
    | cons e es =>
      simp only [List.cons.sizeOf_spec] at hsz
      have hV := (ih (sizeOf e) (by omega)).1 e (le_refl _)
      have hL := (ih (sizeOf es) (by omega)).2.1 es (le_refl _)
      rw [cfuelList, cborDumpList, List.length_append]
      omega
  · intro ms hsz
    cases ms with
    | nil =>
      rw [cfuelEntries]
      omega
    | cons m ms =>
      obtain ⟨k, v⟩ := m
      simp only [List.cons.sizeOf_spec, Prod.mk.sizeOf_spec] at hsz
      have hV := (ih (sizeOf v) (by omega)).1 v (le_refl _)
      have hM := (ih (sizeOf ms) (by omega)).2.2 ms (le_refl _)
      rw [cfuelEntries, cborDumpEntries, List.length_append, List.length_append]
      omega

/-- `cbor2.loads` inverts `cbor2.dumps` on every size-admissible value. -/
theorem cborLoads_cborDump {F : Type} (ffrom : List Nat → Option F)
    (fbytes : F → List Nat)
    (hfb : ∀ x, (fbytes x).length = 8)
    (hff : ∀ x, ffrom (fbytes x) = some x)
    (j : Json F) (hok : cborSizesOk j = true) :
    cborLoads ffrom (cborDump fbytes j) = some j := by
  have hb := (cfuel_le_all fbytes (sizeOf j)).1 j (le_refl _)
  have h1 := (crt_all ffrom fbytes hfb hff ((cborDump fbytes j).length + 1)).1
    j [] (by omega) hok
  rw [List.append_nil] at h1
  unfold cborLoads
  rw [h1]
  rfl

/-! ## The claims -/

/-- Claim C10: every successfully constructed `UploadMetadata` satisfies
the invariant that when both `file_name` and `label` are `None`, the
model validator forces `no_label = True`, regardless of the value the
caller supplied. -/
theorem claim_C10_no_label_forced (m : UploadMetadata)
    (h1 : m.file_name = none) (h2 : m.label = none) :
    (UploadMetadata.mk_validated m).no_label = true := by
  simp [UploadMetadata.mk_validated, UploadMetadata.enforce_no_label_logic, h1, h2]

/-- Witness for C10: a concrete metadata value that supplies
`no_label = false` still comes out with `no_label = true`. -/
theorem claim_C10_witness :
    (UploadMetadata.mk_validated
      { api_key := "k", hmac_key := "h", file_name := none, label := none,
        no_label := false, dataset_type := .training }).no_label = true :=
  claim_C10_no_label_forced
    { api_key := "k", hmac_key := "h", file_name := none, label := none,
      no_label := false, dataset_type := .training } rfl rfl

/-- Claim C3 counterexample: under the configured retry settings, a
queued delivery that always fails (the Edge Impulse client raises on
HTTP 500) is executed exactly once — the task body catches the exception
and returns an error dict, so Celery records a normal completion — and a
task status query then observes state `"SUCCESS"`, not a failure state.
The configured default retry delay is 60 time-units, not 5. -/
theorem claim_C3_counterexample :
    celeryExec celery_task_max_retries celery_task_default_retry_delay
      (fun _ => upload_to_edge_impulse
        (some ⟨"ac:87:a3:0a:2d:1b", "accelerometer", some "idle"⟩)
        (.error "HTTP 500 from ingestion endpoint")) =
      { state := "SUCCESS",
        result := some { status := "error",
                         info := "HTTP 500 from ingestion endpoint" },
        attempts := 1, delays := [] } ∧
    ¬ ((celeryExec celery_task_max_retries celery_task_default_retry_delay
      (fun _ => upload_to_edge_impulse
        (some ⟨"ac:87:a3:0a:2d:1b", "accelerometer", some "idle"⟩)
        (.error "HTTP 500 from ingestion endpoint"))).state = "FAILURE") ∧
    celery_task_default_retry_delay = 60 ∧
    ¬ (celery_task_default_retry_delay = 5) := by
  refine ⟨rfl, ?_, rfl, by decide⟩
  intro hc
  exact absurd hc (by decide)

/-- Claim C3 (amended): in the queued dispatch path, a delivery that
always fails is attempted exactly once with no retry delay ever slept —
the task body catches the exception and returns an error payload instead
of raising or requesting a retry — and a subsequent task status query
observes Celery state `"SUCCESS"` whose result payload carries
`status = "error"`.  The Celery configuration does set a retry budget of
3 and a fixed default delay of 60 time-units, but the task never invokes
them. -/
theorem claim_C3_amended_single_attempt (ds : DataSample) (err : String) :
    celeryExec celery_task_max_retries celery_task_default_retry_delay
      (fun _ => upload_to_edge_impulse (some ds) (.error err)) =
      { state := "SUCCESS", result := some { status := "error", info := err },
        attempts := 1, delays := [] } ∧
    celery_task_max_retries = 3 ∧ celery_task_default_retry_delay = 60 :=
  ⟨rfl, rfl, rfl⟩

/-- Claim C2: when the number of sensor axes differs from the width of
the first values row, `convert` fails with the `ValueError` carrying
both counts, and performs no signing or encoding work (the instrumented
event list is empty). -/
theorem claim_C2_dimension_mismatch_fails_first {F : Type}
    (frender : F → List Char) (H : List Nat → List Nat → List Nat)
    (hmac_key : String) (fbytes : F → List Nat)
    (req : SensorDataRequest F) (w : World)
    (hmis : req.sensors.length ≠ EdgeImpulseConverter.valueDimensions req) :
    EdgeImpulseConverter.convertT frender H hmac_key fbytes req w =
      (.error (EdgeImpulseConverter.dimensionMismatchMsg req.sensors.length
        (EdgeImpulseConverter.valueDimensions req)), []) := by
  unfold EdgeImpulseConverter.convertT EdgeImpulseConverter.validate_dimensions
  simp [hmis]

/-- Witness for C2 at a concrete request: one sensor axis against a
first row of width three. -/
theorem claim_C2_witness :
    EdgeImpulseConverter.convertT intChars (fun _ _ => []) "" (fun _ => [])
      { device_name := "sensor_001", device_type := "accelerometer",
        interval_ms := (10 : Int), sensors := [⟨"accel_x", "m/s2"⟩],
        values := [[1, 2, 3]], timestamp := none, label := none,
        file_format := .json } ⟨0, 0⟩ =
      (.error (EdgeImpulseConverter.dimensionMismatchMsg 1 3), []) :=
  claim_C2_dimension_mismatch_fails_first intChars (fun _ _ => []) ""
    (fun _ => [])
    { device_name := "sensor_001", device_type := "accelerometer",
      interval_ms := (10 : Int), sensors := [⟨"accel_x", "m/s2"⟩],
      values := [[1, 2, 3]], timestamp := none, label := none,
      file_format := .json } ⟨0, 0⟩ (by decide)

/-- Claim C8: a request with at least one sensor axis and an empty
values list fails validation with the dimension-mismatch error whose
value-row width is reported as 0 — the check computes width 0 for an
empty list instead of indexing `values[0]` — and no signing or encoding
is performed. -/
theorem claim_C8_empty_values_width_zero {F : Type}
    (frender : F → List Char) (H : List Nat → List Nat → List Nat)
    (hmac_key : String) (fbytes : F → List Nat)
    (req : SensorDataRequest F) (w : World)
    (h0 : req.values = []) (h1 : req.sensors ≠ []) :
    EdgeImpulseConverter.convertT frender H hmac_key fbytes req w =
      (.error (EdgeImpulseConverter.dimensionMismatchMsg req.sensors.length 0),
       []) := by
  have hvd : EdgeImpulseConverter.valueDimensions req = 0 := by
    unfold EdgeImpulseConverter.valueDimensions
    rw [h0]
  have hlen : req.sensors.length ≠ 0 := by
    cases hs : req.sensors with
    | nil => exact absurd hs h1
    | cons a l => simp [hs]
  unfold EdgeImpulseConverter.convertT EdgeImpulseConverter.validate_dimensions
  rw [hvd]
  simp [hlen]

/-- Witness for C8: three sensor axes and an empty values list. -/
theorem claim_C8_witness :
    EdgeImpulseConverter.convertT intChars (fun _ _ => []) "" (fun _ => [])
      { device_name := "sensor_001", device_type := "accelerometer",
        interval_ms := (10 : Int),
        sensors := [⟨"accel_x", "m/s2"⟩, ⟨"accel_y", "m/s2"⟩, ⟨"accel_z", "m/s2"⟩],
        values := [], timestamp := none, label := none,
        file_format := .cbor } ⟨0, 0⟩ =
      (.error (EdgeImpulseConverter.dimensionMismatchMsg 3 0), []) :=
  claim_C8_empty_values_width_zero intChars (fun _ _ => []) "" (fun _ => [])
    { device_name := "sensor_001", device_type := "accelerometer",
      interval_ms := (10 : Int),
      sensors := [⟨"accel_x", "m/s2"⟩, ⟨"accel_y", "m/s2"⟩, ⟨"accel_z", "m/s2"⟩],
      values := [], timestamp := none, label := none,
      file_format := .cbor } ⟨0, 0⟩ rfl (by decide)

/-- Claim C5: signing is deterministic — for a fixed payload, key and
`issued_at`, the built (signed) envelope does not depend on any other
ambient state; two invocations under different clocks that agree on
`iat` produce identical envelopes, hence identical signatures. -/
theorem claim_C5_signing_deterministic {F : Type}
    (frender : F → List Char) (H : List Nat → List Nat → List Nat)
    (hmac_key : String) (req : SensorDataRequest F) (w w' : World)
    (hiat : EdgeImpulseConverter.iatOf req w = EdgeImpulseConverter.iatOf req w') :
    EdgeImpulseConverter.build_edge_impulse_payload frender H hmac_key req w =
      EdgeImpulseConverter.build_edge_impulse_payload frender H hmac_key req w' := by
  unfold EdgeImpulseConverter.build_edge_impulse_payload
    EdgeImpulseConverter.unsignedEnvelope EdgeImpulseConverter.protectedDict
  rw [hiat]

/-- Witness for C5: two different worlds (clocks), same provided
timestamp, identical signed envelopes. -/
theorem claim_C5_witness :
    EdgeImpulseConverter.build_edge_impulse_payload intChars
      (fun k m => k ++ m) "secret"
      { device_name := "d", device_type := "t", interval_ms := (10 : Int),
        sensors := [⟨"a", "u"⟩], values := [[1]],
        timestamp := some 1699000000, label := none, file_format := .json }
      ⟨11, 12⟩ =
    EdgeImpulseConverter.build_edge_impulse_payload intChars
      (fun k m => k ++ m) "secret"
      { device_name := "d", device_type := "t", interval_ms := (10 : Int),
        sensors := [⟨"a", "u"⟩], values := [[1]],
        timestamp := some 1699000000, label := none, file_format := .json }
      ⟨999, 1000⟩ :=
  claim_C5_signing_deterministic intChars (fun k m => k ++ m) "secret"
    { device_name := "d", device_type := "t", interval_ms := (10 : Int),
      sensors := [⟨"a", "u"⟩], values := [[1]],
      timestamp := some 1699000000, label := none, file_format := .json }
    ⟨11, 12⟩ ⟨999, 1000⟩ rfl

/-- Claim C4: with an empty (or absent) signing key the produced
envelope has `protected.alg = "none"` and the all-zero placeholder
signature `"0" * 64`, the payload values pass through unchanged, and —
for a dimensionally consistent request — conversion succeeds; unsigned
mode is not an error. -/
theorem claim_C4_unsigned_mode {F : Type}
    (frender : F → List Char) (H : List Nat → List Nat → List Nat)
    (hmac_key : String) (fbytes : F → List Nat)
    (req : SensorDataRequest F) (w : World) (hkey : hmac_key = "") :
    dictGet (EdgeImpulseConverter.build_edge_impulse_payload frender H hmac_key req w)
        "protected" =
      some (.obj (EdgeImpulseConverter.protectedDict hmac_key req w)) ∧
    dictGet (EdgeImpulseConverter.protectedDict hmac_key req w) "alg" =
      some (.str "none") ∧
    dictGet (EdgeImpulseConverter.build_edge_impulse_payload frender H hmac_key req w)
        "signature" =
      some (.str (String.mk (List.replicate 64 '0'))) ∧
    dictGet (EdgeImpulseConverter.build_edge_impulse_payload frender H hmac_key req w)
        "payload" =
      some (.obj (EdgeImpulseConverter.payloadDict req)) ∧
    dictGet (EdgeImpulseConverter.payloadDict req) "values" =
      some (.arr (req.values.map (fun row => .arr (row.map Json.num)))) ∧
    (req.sensors.length = EdgeImpulseConverter.valueDimensions req →
      ∃ out, EdgeImpulseConverter.convert frender H hmac_key fbytes req w = .ok out) := by
  subst hkey
  refine ⟨rfl, rfl, rfl, rfl, rfl, ?_⟩
  intro hdim
  unfold EdgeImpulseConverter.convert EdgeImpulseConverter.convertT
    EdgeImpulseConverter.validate_dimensions
  simp only [hdim, ne_eq, not_true_eq_false, if_false, ite_false]
  cases req.file_format <;> exact ⟨_, rfl⟩

/-- Witness for C4: the spec's example frame, unsigned. -/
theorem claim_C4_witness :
    dictGet (EdgeImpulseConverter.build_edge_impulse_payload intChars
        (fun k m => k ++ m) ""
        { device_name := "ac:87:a3:0a:2d:1b", device_type := "DISCO-L475VG-IOT01A",
          interval_ms := (10 : Int),
          sensors := [⟨"accX", "m/s2"⟩, ⟨"accY", "m/s2"⟩, ⟨"accZ", "m/s2"⟩],
          values := [[-9, 0, 1], [-9, 0, 1]], timestamp := some 1699000000,
          label := none, file_format := .json } ⟨7, 8⟩) "signature" =
      some (.str (String.mk (List.replicate 64 '0'))) :=
  (claim_C4_unsigned_mode intChars (fun k m => k ++ m) "" (fun _ => [])
    { device_name := "ac:87:a3:0a:2d:1b", device_type := "DISCO-L475VG-IOT01A",
      interval_ms := (10 : Int),
      sensors := [⟨"accX", "m/s2"⟩, ⟨"accY", "m/s2"⟩, ⟨"accZ", "m/s2"⟩],
      values := [[-9, 0, 1], [-9, 0, 1]], timestamp := some 1699000000,
      label := none, file_format := .json } ⟨7, 8⟩ rfl).2.2.1

/-- Claim C9: signing is frame-preserving — every field of the built
envelope other than `signature` coincides with the unsigned envelope's
field, and `_sign_data` is insensitive to the signature binding of the
dict it is given (it signs a copy with the placeholder substituted), so
it cannot leak the input's signature into the digest. -/
theorem claim_C9_signing_frame {F : Type}
    (frender : F → List Char) (H : List Nat → List Nat → List Nat)
    (hmac_key : String) (req : SensorDataRequest F) (w : World) :
    (∀ k, k ≠ "signature" →
      dictGet (EdgeImpulseConverter.build_edge_impulse_payload frender H hmac_key req w) k =
        dictGet (EdgeImpulseConverter.unsignedEnvelope hmac_key req w) k) ∧
    (∀ (d : List (String × Json F)) (v : Json F),
      EdgeImpulseConverter.sign_data frender H hmac_key (dictSet d "signature" v) =
        EdgeImpulseConverter.sign_data frender H hmac_key d) := by
  constructor
  · intro k hk
    unfold EdgeImpulseConverter.build_edge_impulse_payload
    exact dictGet_dictSet_ne _ _ _ _ hk
  · intro d v
    unfold EdgeImpulseConverter.sign_data
    by_cases hkey : hmac_key = ""
    · simp [hkey]
    · simp only [if_neg hkey]
      rw [dictSet_dictSet]

/-- Witness for C9: the `protected` field of a concrete signed envelope
equals the unsigned one's. -/
theorem claim_C9_witness :
    dictGet (EdgeImpulseConverter.build_edge_impulse_payload intChars
        (fun k m => k ++ m) "secret"
        { device_name := "d", device_type := "t", interval_ms := (10 : Int),
          sensors := [⟨"a", "u"⟩], values := [[1]], timestamp := some 5,
          label := none, file_format := .json } ⟨7, 8⟩) "protected" =
      dictGet (EdgeImpulseConverter.unsignedEnvelope "secret"
        { device_name := "d", device_type := "t", interval_ms := (10 : Int),
          sensors := [⟨"a", "u"⟩], values := [[1]], timestamp := some 5,
          label := none, file_format := .json } ⟨7, 8⟩) "protected" :=
  (claim_C9_signing_frame intChars (fun k m => k ++ m) "secret"
    { device_name := "d", device_type := "t", interval_ms := (10 : Int),
      sensors := [⟨"a", "u"⟩], values := [[1]], timestamp := some 5,
      label := none, file_format := .json } ⟨7, 8⟩).1 "protected" (by decide)

/-- Claim C1: with a non-empty HMAC key, the envelope's `signature`
field is exactly the lowercase 64-character hex encoding of
`HMAC-SHA256(key, canonical_bytes)`, where `canonical_bytes` is the
UTF-8 serialization of the envelope with its `signature` set back to
the all-zero placeholder, keys recursively sorted and `","`/`":"`
separators; and the protected header says `alg = "HS256"`.  (`H` is the
`hmac`/`hashlib` HMAC-SHA256, whose digests are 32 bytes.) -/
theorem claim_C1_signature_is_canonical_hmac {F : Type}
    (frender : F → List Char) (H : List Nat → List Nat → List Nat)
    (hmac_key : String) (req : SensorDataRequest F) (w : World)
    (e : List (String × Json F))
    (he : e = EdgeImpulseConverter.build_edge_impulse_payload frender H hmac_key req w)
    (hkey : hmac_key ≠ "")
    (hH : ∀ key msg, (H key msg).length = 32) :
    dictGet e "signature" =
      some (.str (hexOfBytes (H (strBytes hmac_key)
        (strBytes (cdumps frender (.obj (dictSet e "signature"
          (.str EdgeImpulseConverter.placeholderSig)))))))) ∧
    dictGet e "protected" =
      some (.obj (EdgeImpulseConverter.protectedDict hmac_key req w)) ∧
    dictGet (EdgeImpulseConverter.protectedDict hmac_key req w) "alg" =
      some (.str "HS256") ∧
    (hexOfBytes (H (strBytes hmac_key)
      (strBytes (cdumps frender (.obj (dictSet e "signature"
        (.str EdgeImpulseConverter.placeholderSig))))))).length = 64 ∧
    (∀ c ∈ (hexOfBytes (H (strBytes hmac_key)
        (strBytes (cdumps frender (.obj (dictSet e "signature"
          (.str EdgeImpulseConverter.placeholderSig))))))).data,
      (48 ≤ c.toNat ∧ c.toNat ≤ 57) ∨ (97 ≤ c.toNat ∧ c.toNat ≤ 102)) := by
  have hset : dictSet (EdgeImpulseConverter.unsignedEnvelope hmac_key req w)
      "signature" (.str EdgeImpulseConverter.placeholderSig) =
      EdgeImpulseConverter.unsignedEnvelope hmac_key req w := rfl
  subst he
  unfold EdgeImpulseConverter.build_edge_impulse_payload
  refine ⟨?_, rfl, ?_, ?_, ?_⟩
  · rw [dictSet_dictSet, hset]
    show some (Json.str (EdgeImpulseConverter.sign_data frender H hmac_key
      (EdgeImpulseConverter.unsignedEnvelope hmac_key req w))) = _
    unfold EdgeImpulseConverter.sign_data
    rw [if_neg hkey, hset]
  · rw [show dictGet (EdgeImpulseConverter.protectedDict hmac_key req w) "alg" =
      some (Json.str (if hmac_key = "" then "none" else "HS256")) from rfl,
      if_neg hkey]
  · rw [length_hexOfBytes, hH]
  · exact hexOfBytes_lowercase _

/-- Witness for C1 at a concrete request, key `"k"`, and a concrete
32-byte digest function. -/
theorem claim_C1_witness :
    dictGet (EdgeImpulseConverter.build_edge_impulse_payload intChars
        (fun _ _ => List.replicate 32 0) "k"
        { device_name := "d", device_type := "t", interval_ms := (10 : Int),
          sensors := [⟨"a", "u"⟩], values := [[1]], timestamp := some 5,
          label := none, file_format := .json } ⟨7, 8⟩) "signature" =
      some (.str (hexOfBytes ((fun (_ _ : List Nat) => List.replicate 32 0)
        (strBytes "k")
        (strBytes (cdumps intChars (.obj (dictSet
          (EdgeImpulseConverter.build_edge_impulse_payload intChars
            (fun _ _ => List.replicate 32 0) "k"
            { device_name := "d", device_type := "t", interval_ms := (10 : Int),
              sensors := [⟨"a", "u"⟩], values := [[1]], timestamp := some 5,
              label := none, file_format := .json } ⟨7, 8⟩)
          "signature" (.str EdgeImpulseConverter.placeholderSig)))))))) :=
  (claim_C1_signature_is_canonical_hmac intChars (fun _ _ => List.replicate 32 0)
    "k"
    { device_name := "d", device_type := "t", interval_ms := (10 : Int),
      sensors := [⟨"a", "u"⟩], values := [[1]], timestamp := some 5,
      label := none, file_format := .json } ⟨7, 8⟩ _ rfl (by decide)
    (fun _ _ => by simp)).1

/-- Claim C7: if ANY row of `values` (not only the first) has a width
other than the number of sensor axes, the validation + conversion
pipeline fails: rows unequal to the first are rejected by the pydantic
row-consistency validator, and a consistent-but-wrong width is rejected
by the converter's dimension check. -/
theorem claim_C7_any_row_mismatch_fails {F : Type}
    (fpos : F → Bool) (frender : F → List Char)
    (H : List Nat → List Nat → List Nat) (hmac_key : String)
    (fbytes : F → List Nat) (raw : RawRequest F) (w : World)
    (i : Nat) (hi : i < raw.values.length)
    (hbad : (raw.values.get ⟨i, hi⟩).length ≠ raw.sensors.length) :
    ∃ msg, requestPipeline fpos frender H hmac_key fbytes raw w = .error msg := by
  cases hv : validateRequest fpos raw with
  | error msg =>
    refine ⟨msg, ?_⟩
    unfold requestPipeline
    rw [hv]
  | ok req =>
    have hvu := hv
    unfold validateRequest at hvu
    by_cases h1 : ¬ fpos raw.interval_ms
    · rw [if_pos h1] at hvu; cases hvu
    rw [if_neg h1] at hvu
    by_cases h2 : raw.sensors.length < 1
    · rw [if_pos h2] at hvu; cases hvu
    rw [if_neg h2] at hvu
    by_cases h3 : raw.values.length < 1
    · rw [if_pos h3] at hvu; cases hvu
    rw [if_neg h3] at hvu
    by_cases h4 : raw.values.isEmpty
    · rw [if_pos h4] at hvu; cases hvu
    rw [if_neg h4] at hvu
    cases hr : firstRaggedRow raw.values with
    | some j => rw [hr] at hvu; cases hvu
    | none =>
      rw [hr] at hvu
      injection hvu with hreq
      cases hvals : raw.values with
      | nil =>
        rw [hvals] at h3
        simp at h3
      | cons r0 rest =>
        have hall : ∀ r ∈ raw.values, r.length = r0.length := by
          have hr' := hr
          unfold firstRaggedRow at hr'
          rw [hvals] at hr'
          rw [hvals]
          exact firstRaggedRowFrom_none r0.length 0 (r0 :: rest) hr'
        have hrow : (raw.values.get ⟨i, hi⟩).length = r0.length :=
          hall _ (raw.values.get_mem i hi)
        have hvd : EdgeImpulseConverter.valueDimensions req = r0.length := by
          rw [← hreq]
          unfold EdgeImpulseConverter.valueDimensions
          rw [hvals]
        have hsen : req.sensors = raw.sensors := by rw [← hreq]
        have hmis : req.sensors.length ≠ EdgeImpulseConverter.valueDimensions req := by
          rw [hvd, hsen]
          omega
        refine ⟨EdgeImpulseConverter.dimensionMismatchMsg req.sensors.length
          (EdgeImpulseConverter.valueDimensions req), ?_⟩
        unfold requestPipeline
        rw [hv]
        unfold EdgeImpulseConverter.convert EdgeImpulseConverter.convertT
          EdgeImpulseConverter.validate_dimensions
        simp [hmis]

/-- Witness for C7: the first row matches the two sensor axes but the
second row does not, so only the any-row invariant can catch it. -/
theorem claim_C7_witness :
    ∃ msg, requestPipeline (fun _ => true) intChars (fun _ _ => []) ""
      (fun _ => [])
      { device_name := "d", device_type := "t", interval_ms := (10 : Int),
        sensors := [⟨"a", "u"⟩, ⟨"b", "u"⟩],
        values := [[1, 2], [1, 2, 3]], timestamp := none, label := none,
        file_format := .json } ⟨0, 0⟩ = .error msg :=
  claim_C7_any_row_mismatch_fails (fun _ => true) intChars (fun _ _ => []) ""
    (fun _ => [])
    { device_name := "d", device_type := "t", interval_ms := (10 : Int),
      sensors := [⟨"a", "u"⟩, ⟨"b", "u"⟩],
      values := [[1, 2], [1, 2, 3]], timestamp := none, label := none,
      file_format := .json } ⟨0, 0⟩ 1 (by decide) (by decide)

/-- Claim C6: for every request `convert` accepts — in both output
formats — decoding the produced bytes recovers the signed envelope that
was built, field for field.  The float-codec hypotheses state that the
renderer emits a number token (with a fraction or exponent marker) that
the reader parses back to the same value, that the 8-byte CBOR float
encoding decodes back to the same value (double precision preserved),
and `cborSizesOk` is the physical-size condition of the CBOR model. -/
theorem claim_C6_roundtrip {F : Type}
    (frender : F → List Char) (fparse : List Char → Option F)
    (fbytes : F → List Nat) (ffrom : List Nat → Option F)
    (H : List Nat → List Nat → List Nat) (hmac_key : String)
    (hfp : ∀ x, fparse (frender x) = some x)
    (hfchars : ∀ x, ∀ c ∈ frender x, numTokChar c = true)
    (hfmark : ∀ x,
      (frender x).any (fun c => c = '.' || c = 'e' || c = 'E') = true)
    (hfhead : ∀ x, ∃ c t, frender x = c :: t ∧
      (c.isDigit || decide (c = '-')) = true)
    (hfb : ∀ x, (fbytes x).length = 8)
    (hff : ∀ x, ffrom (fbytes x) = some x)
    (req : SensorDataRequest F) (w : World)
    (content : List Nat) (filename ctype : String)
    (hconv : EdgeImpulseConverter.convert frender H hmac_key fbytes req w =
      .ok (content, filename, ctype))
    (hok : cborSizesOk (Json.obj
        (EdgeImpulseConverter.build_edge_impulse_payload frender H hmac_key
          req w)) = true) :
    (req.file_format = .json →
      decodeJsonBytes fparse content = some (Json.obj
        (EdgeImpulseConverter.build_edge_impulse_payload frender H hmac_key
          req w))) ∧
    (req.file_format = .cbor →
      cborLoads ffrom content = some (Json.obj
        (EdgeImpulseConverter.build_edge_impulse_payload frender H hmac_key
          req w))) := by
  unfold EdgeImpulseConverter.convert EdgeImpulseConverter.convertT at hconv
  split at hconv
  · simp at hconv
  · split at hconv
    · rename_i heqf
      injection hconv with h
      injection h with h1 h2
      constructor
      · intro hjson
        rw [heqf] at hjson
        cases hjson
      · intro _
        rw [← h1]
        exact cborLoads_cborDump ffrom fbytes hfb hff _ hok
    · rename_i heqf
      injection hconv with h
      injection h with h1 h2
      constructor
      · intro _
        rw [← h1]
        exact decodeJsonBytes_encodeJsonBytes fparse frender hfp hfchars
          hfmark hfhead _
      · intro hcbor
        rw [heqf] at hcbor
        cases hcbor

/-- Witness for C6: a concrete one-axis request in JSON format, with the
trivial one-value float codec. -/
theorem claim_C6_witness :
    ((({ device_name := "d", device_type := "t", interval_ms := (),
                  sensors := [⟨"a", "u"⟩], values := [[()]],
                  timestamp := some 1, label := none,
                  file_format := .json } : SensorDataRequest Unit).file_format = .json →
      decodeJsonBytes (fun cs => if cs = ['0', '.', '0'] then some () else none)
        (strBytes (pdumps (fun _ => ['0', '.', '0']) (Json.obj (EdgeImpulseConverter.build_edge_impulse_payload
          (fun _ => ['0', '.', '0']) (fun _ _ => ([] : List Nat)) ""
          ({ device_name := "d", device_type := "t", interval_ms := (),
                  sensors := [⟨"a", "u"⟩], values := [[()]],
                  timestamp := some 1, label := none,
                  file_format := .json } : SensorDataRequest Unit) ⟨5, 6⟩)))) =
        some (Json.obj (EdgeImpulseConverter.build_edge_impulse_payload
          (fun _ => ['0', '.', '0']) (fun _ _ => ([] : List Nat)) ""
          ({ device_name := "d", device_type := "t", interval_ms := (),
                  sensors := [⟨"a", "u"⟩], values := [[()]],
                  timestamp := some 1, label := none,
                  file_format := .json } : SensorDataRequest Unit) ⟨5, 6⟩))) ∧
    (({ device_name := "d", device_type := "t", interval_ms := (),
                  sensors := [⟨"a", "u"⟩], values := [[()]],
                  timestamp := some 1, label := none,
                  file_format := .json } : SensorDataRequest Unit).file_format = .cbor →
      cborLoads (fun bs => if bs = List.replicate 8 0 then some () else none)
        (strBytes (pdumps (fun _ => ['0', '.', '0']) (Json.obj (EdgeImpulseConverter.build_edge_impulse_payload
          (fun _ => ['0', '.', '0']) (fun _ _ => ([] : List Nat)) ""
          ({ device_name := "d", device_type := "t", interval_ms := (),
                  sensors := [⟨"a", "u"⟩], values := [[()]],
                  timestamp := some 1, label := none,
                  file_format := .json } : SensorDataRequest Unit) ⟨5, 6⟩)))) =
        some (Json.obj (EdgeImpulseConverter.build_edge_impulse_payload
          (fun _ => ['0', '.', '0']) (fun _ _ => ([] : List Nat)) ""
          ({ device_name := "d", device_type := "t", interval_ms := (),
                  sensors := [⟨"a", "u"⟩], values := [[()]],
                  timestamp := some 1, label := none,
                  file_format := .json } : SensorDataRequest Unit) ⟨5, 6⟩)))) :=
  claim_C6_roundtrip (fun _ => ['0', '.', '0'])
    (fun cs => if cs = ['0', '.', '0'] then some () else none)
    (fun _ => List.replicate 8 0)
    (fun bs => if bs = List.replicate 8 0 then some () else none)
    (fun _ _ => ([] : List Nat)) ""
    (fun _ => rfl)
    (fun _ => (by decide : ∀ c ∈ (['0', '.', '0'] : List Char),
      numTokChar c = true))
    (fun _ => (by decide : ((['0', '.', '0'] : List Char).any
      (fun c => c = '.' || c = 'e' || c = 'E')) = true))
    (fun _ => ⟨'0', ['.', '0'], rfl, by decide⟩)
    (fun _ => (by decide : (List.replicate 8 (0 : Nat)).length = 8))
    (fun _ => rfl)
    ({ device_name := "d", device_type := "t", interval_ms := (),
                  sensors := [⟨"a", "u"⟩], values := [[()]],
                  timestamp := some 1, label := none,
                  file_format := .json } : SensorDataRequest Unit) ⟨5, 6⟩
    (strBytes (pdumps (fun _ => ['0', '.', '0']) (Json.obj (EdgeImpulseConverter.build_edge_impulse_payload
          (fun _ => ['0', '.', '0']) (fun _ _ => ([] : List Nat)) ""
          ({ device_name := "d", device_type := "t", interval_ms := (),
                  sensors := [⟨"a", "u"⟩], values := [[()]],
                  timestamp := some 1, label := none,
                  file_format := .json } : SensorDataRequest Unit) ⟨5, 6⟩))))
    (EdgeImpulseConverter.generate_filename
      ({ device_name := "d", device_type := "t", interval_ms := (),
                  sensors := [⟨"a", "u"⟩], values := [[()]],
                  timestamp := some 1, label := none,
                  file_format := .json } : SensorDataRequest Unit) ⟨5, 6⟩)
    "application/json"
    rfl
    (by decide)

end EISpec
